import Mathlib

/-!
Verification of the entity model and data-shape normalization layer of the
`capsule_api` Python client (`src/capsule_api/capsule_api.py`).

The embedding is shallow:

* JSON values returned by the API are modelled by the inductive `JSON`;
  a Python `dict` backing an entity (a "raw record") is an insertion-ordered
  association list `RawRecord` with unique keys.
* Python's `Decimal` is modelled by `ℚ` (exact arithmetic; the claims never
  exercise the 28-significant-digit context rounding of `Decimal` division,
  and JSON numbers are modelled as exact rationals, not binary floats).
* Fallible Python code is modelled in `Except PyError`; the constructors of
  `PyError` mirror the exception classes the source raises
  (`KeyError`, `AttributeError`, `ValueError` — the spec's `FormatError` —,
  `TypeError`, and bare `Exception` — the spec's `ValidationError`;
  exception message payloads are not modelled except for the attribute /
  key name).
* `datetime.datetime.strptime(s, '%Y-%m-%dT%H:%M:%SZ')` is modelled on the
  fixed-width 20-character format (the spec fixes the pattern
  `YYYY-MM-DDTHH:MM:SSZ`); `datetime`'s field-range validation (month 1–12,
  day against the month length, hour/minute/second bounds) is included.
-/

inductive JSON where
  | null
  | bool (b : Bool)
  | num (q : ℚ)
  | str (s : String)
  | arr (elts : List JSON)
  | obj (fields : List (String × JSON))

/-- A raw API record: an insertion-ordered string-keyed mapping (Python `dict`). -/
abbrev RawRecord := List (String × JSON)

/-- Key lookup in a record (`d[k]` / `d.get(k)` success case): first match wins. -/
def getKey (k : String) : List (String × α) → Option α
  | [] => none
  | (k', v) :: rest => if k' = k then some v else getKey k rest

/-- Assignment `d[k] = v` on a Python dict: replaces in place, preserving insertion order,
appending when the key is new. -/
def upsert (k : String) (v : α) : List (String × α) → List (String × α)
  | [] => [(k, v)]
  | (k', v') :: rest => if k' = k then (k', v) :: rest else (k', v') :: upsert k v rest

/-- Python truthiness of a JSON value (`bool(x)`). -/
def truthy : JSON → Bool
  | .null => false
  | .bool b => b
  | .num q => !(q = 0 : Bool)
  | .str s => !(s = "" : Bool)
  | .arr l => !l.isEmpty
  | .obj f => !f.isEmpty

def isStr : JSON → Bool
  | .str _ => true
  | _ => false

def isObj : JSON → Bool
  | .obj _ => true
  | _ => false

/-- Truthiness of `d.get(k)` (`None` when absent, which is falsy). -/
def truthyOpt : Option JSON → Bool
  | none => false
  | some v => truthy v

/-- The Python exceptions the modelled code can raise.  In the spec's error
taxonomy, `valueError` is `FormatError`, `attributeError` is
`AttributeNotFound`, and `exceptionErr` (a bare `Exception`) is
`ValidationError`. -/
inductive PyError where
  | keyError (k : String)
  | attributeError (name : String)
  | valueError
  | typeError
  | exceptionErr
deriving DecidableEq

mutual
/-- Python `==` on JSON values.  String/number/boolean comparisons follow
Python (`True == 1`); lists compare pointwise.  Scope: Python dict equality
is key-set based and order-insensitive; the claims never compare two dicts,
and object comparison here is pointwise in insertion order. -/
def pyEq : JSON → JSON → Bool
  | .null, .null => true
  | .bool a, .bool b => a == b
  | .bool a, .num q => ((if a then (1 : ℚ) else 0) = q : Bool)
  | .num q, .bool b => ((q = if b then (1 : ℚ) else 0) : Bool)
  | .num a, .num b => (a = b : Bool)
  | .str a, .str b => a == b
  | .arr as, .arr bs => pyEqList as bs
  | .obj as, .obj bs => pyEqFields as bs
  | _, _ => false

def pyEqList : List JSON → List JSON → Bool
  | [], [] => true
  | a :: as, b :: bs => pyEq a b && pyEqList as bs
  | _, _ => false

def pyEqFields : List (String × JSON) → List (String × JSON) → Bool
  | [], [] => true
  | (k1, v1) :: as, (k2, v2) :: bs => k1 == k2 && pyEq v1 v2 && pyEqFields as bs
  | _, _ => false
end

/-- Insertion into a Python dict built key by key: an existing (`==`-equal) key
keeps its position and original key object, only the value is replaced; a new
key is appended. -/
def odInsert (k : JSON) (v : α) : List (JSON × α) → List (JSON × α)
  | [] => [(k, v)]
  | (k', v') :: rest => if pyEq k' k then (k', v) :: rest else (k', v') :: odInsert k v rest

/-- Sequential effectful map (a Python loop / generator consumed in order:
the first raised exception wins). -/
def mapE (g : α → Except PyError β) : List α → Except PyError (List β)
  | [] => .ok []
  | a :: l => do pure ((← g a) :: (← mapE g l))

/-- Models `try: ... except KeyError: raise AttributeError(name)` around a computation. -/
def wrapKeyError (name : String) : Except PyError α → Except PyError α
  | .error (.keyError _) => .error (.attributeError name)
  | other => other

/-- Iterating a JSON value as a list.  Scope: Python iteration over a dict
(its keys) or a string (its characters) is not modelled; the code under
verification only ever iterates list-shaped values, and any other truthy
value is reported as a `TypeError`. -/
def asList : JSON → Except PyError (List JSON)
  | .arr l => .ok l
  | _ => .error .typeError

/-- Constructing an entity from a JSON value (`dict(v)` via the `dict`
subclass constructors): only a mapping is accepted. -/
def asRecord : JSON → Except PyError RawRecord
  | .obj f => .ok f
  | _ => .error .typeError

/-- Python `x[k]` for a string key `k`: dict lookup (`KeyError` when absent);
indexing any non-dict with a string raises `TypeError`. -/
def jsonIndex (x : JSON) (k : String) : Except PyError JSON :=
  match x with
  | .obj f =>
    match getKey k f with
    | some v => .ok v
    | none => .error (.keyError k)
  | _ => .error .typeError

/-- Python `x.get(k)`: only dicts have a `get` attribute. -/
def jsonGet (x : JSON) (k : String) : Except PyError (Option JSON) :=
  match x with
  | .obj f => .ok (getKey k f)
  | _ => .error (.attributeError "get")

def prefixOfB : List Char → List Char → Bool
  | [], _ => true
  | _ :: _, [] => false
  | a :: as, b :: bs => a == b && prefixOfB as bs

def containsSub (s pat : List Char) : Bool :=
  match s with
  | [] => pat.isEmpty
  | _ :: t => prefixOfB pat s || containsSub t pat

/-- Python `k in x` for a string `k`: key membership for dicts, substring
test for strings, element membership (under `==`) for lists; `in` on any
other value raises `TypeError`. -/
def keyIn (k : String) (x : JSON) : Except PyError Bool :=
  match x with
  | .obj f => .ok (getKey k f).isSome
  | .str s => .ok (containsSub s.data k.data)
  | .arr l => .ok (l.any fun e => pyEq e (.str k))
  | _ => .error .typeError

/-! ### Dates: `capsule_datetime_to_utc_aware` -/

/-- A parsed `datetime.datetime` (always UTC-anchored here, so no zone field). -/
structure DateTime where
  year : ℕ
  month : ℕ
  day : ℕ
  hour : ℕ
  minute : ℕ
  second : ℕ
deriving DecidableEq

/-- A `datetime.date` (the result of `.date()`). -/
structure PyDate where
  year : ℕ
  month : ℕ
  day : ℕ
deriving DecidableEq

def DateTime.date (d : DateTime) : PyDate := ⟨d.year, d.month, d.day⟩

/-- Calendar order on dates. -/
def PyDate.le (a b : PyDate) : Prop :=
  a.year < b.year ∨ (a.year = b.year ∧ (a.month < b.month ∨ (a.month = b.month ∧ a.day ≤ b.day)))

instance : DecidableRel PyDate.le := fun a b => by unfold PyDate.le; exact inferInstance

def isDigitChar (c : Char) : Bool := 48 ≤ c.toNat && c.toNat ≤ 57

def digitVal (c : Char) : ℕ := c.toNat - 48

def num2 (a b : Char) : ℕ := digitVal a * 10 + digitVal b

def num4 (a b c d : Char) : ℕ := ((digitVal a * 10 + digitVal b) * 10 + digitVal c) * 10 + digitVal d

def isLeapYear (y : ℕ) : Bool := (y % 4 == 0 && y % 100 != 0) || y % 400 == 0

def daysInMonth (y m : ℕ) : ℕ :=
  if m = 2 then (if isLeapYear y then 29 else 28)
  else if m = 4 ∨ m = 6 ∨ m = 9 ∨ m = 11 then 30
  else 31

/-- Models `datetime.datetime.strptime(s, '%Y-%m-%dT%H:%M:%SZ')` on the fixed-width
form of the pattern: exactly 20 characters, digits and literal separators in
place, and the parsed fields acceptable to the `datetime` constructor
(`MINYEAR ≤ year`, month 1–12, day within the month, hour ≤ 23,
minute ≤ 59, second ≤ 59). -/
def strptimeCapsule : List Char → Option DateTime
  | [y1, y2, y3, y4, c1, o1, o2, c2, d1, d2, c3, h1, h2, c4, i1, i2, c5, s1, s2, c6] =>
    if c1 = '-' ∧ c2 = '-' ∧ c3 = 'T' ∧ c4 = ':' ∧ c5 = ':' ∧ c6 = 'Z'
        ∧ isDigitChar y1 = true ∧ isDigitChar y2 = true
        ∧ isDigitChar y3 = true ∧ isDigitChar y4 = true
        ∧ isDigitChar o1 = true ∧ isDigitChar o2 = true
        ∧ isDigitChar d1 = true ∧ isDigitChar d2 = true
        ∧ isDigitChar h1 = true ∧ isDigitChar h2 = true
        ∧ isDigitChar i1 = true ∧ isDigitChar i2 = true
        ∧ isDigitChar s1 = true ∧ isDigitChar s2 = true then
      let y := num4 y1 y2 y3 y4
      let mo := num2 o1 o2
      let d := num2 d1 d2
      let h := num2 h1 h2
      let mi := num2 i1 i2
      let s := num2 s1 s2
      if 1 ≤ y ∧ 1 ≤ mo ∧ mo ≤ 12 ∧ 1 ≤ d ∧ d ≤ daysInMonth y mo
          ∧ h ≤ 23 ∧ mi ≤ 59 ∧ s ≤ 59 then
        some ⟨y, mo, d, h, mi, s⟩
      else none
    else none
  | _ => none

/-- Models `capsule_datetime_to_utc_aware(datetime_string)`: `strptime` with the fixed
capsule pattern (a parse failure is a `ValueError`); the `tzinfo` replacement
has no observable effect in this model. -/
def capsule_datetime_to_utc_aware (s : String) : Except PyError DateTime :=
  match strptimeCapsule s.data with
  | some dt => .ok dt
  | none => .error .valueError

/-! ### Lexicographic string comparison (Python `str` ordering by code point) -/

def lexLe : List Char → List Char → Bool
  | [], _ => true
  | _ :: _, [] => false
  | a :: as, b :: bs =>
    if a.toNat < b.toNat then true
    else if b.toNat < a.toNat then false
    else lexLe as bs

/-- Pattern matching for the fixed capsule format: `'D'` stands for a digit,
any other pattern character stands for itself. -/
def matchesPat : List Char → List Char → Bool
  | [], cs => cs.isEmpty
  | p :: ps, cs =>
    match cs with
    | [] => false
    | c :: cs' => (if p = 'D' then isDigitChar c else c = p) && matchesPat ps cs'

def capsulePat : List Char :=
  ['D','D','D','D','-','D','D','-','D','D','T','D','D',':','D','D',':','D','D','Z']

/-- Number of digit positions in a pattern. -/
def numD : List Char → ℕ
  | [] => 0
  | p :: ps => (if p = 'D' then 1 else 0) + numD ps

/-- The numeric key of a format-matching string: its digits read as one
decimal number (accumulator form). -/
def keyAux : List Char → List Char → ℕ → ℕ
  | p :: ps, c :: cs, n => keyAux ps cs (if p = 'D' then n * 10 + digitVal c else n)
  | _, _, n => n

/-! ### CustomFieldsMixin -/

namespace CustomFieldsMixin

/-- The inner `to_tuple` of the `customfields` property: one custom-field
entry becomes a `(label, value)` pair, with the value drawn from the first
present one of `text` / `boolean` / `number` (`boolean` compared with `==`
against the literal string `"true"`); an entry with none of the three raises
`ValueError`.  Python builds each tuple left to right, so the `label` lookup
happens (and can raise `KeyError`) before the value is read. -/
def to_tuple (x : JSON) : Except PyError (JSON × JSON) := do
  if (← keyIn "text" x) then
    pure ((← jsonIndex x "label"), (← jsonIndex x "text"))
  else if (← keyIn "boolean" x) then
    pure ((← jsonIndex x "label"), .bool (pyEq (← jsonIndex x "boolean") (.str "true")))
  else if (← keyIn "number" x) then
    pure ((← jsonIndex x "label"), (← jsonIndex x "number"))
  else .error .valueError

/-- Lookup `self['customfields']` (the legacy fallback). -/
def legacyLookup (r : RawRecord) : Except PyError JSON :=
  match getKey "customfields" r with
  | some v => .ok v
  | none => .error (.keyError "customfields")

/-- The `customfields` property:
`self.get('raw_customfields') or self['customfields']` (so a *falsy*
`raw_customfields`, in particular the empty list, falls back to the legacy
key), each entry turned into a tuple by `to_tuple`, the tuples collected
into a dict; any `KeyError` along the way is converted to
`AttributeError('customfields')`. -/
def customfields (r : RawRecord) : Except PyError (List (JSON × JSON)) :=
  wrapKeyError "customfields" (do
    let cf ← match getKey "raw_customfields" r with
      | some v => if truthy v then pure v else legacyLookup r
      | none => legacyLookup r
    let xs ← asList cf
    let pairs ← mapE to_tuple xs
    pure (pairs.foldl (fun acc kv => odInsert kv.1 kv.2 acc) []))

/-- The date string of a date-tag entry, as seen by `sorted`'s key function
(`lambda x: x['date']`); junk (`[]`) off the record shape guarded by the
claims' hypotheses. -/
def dateChars (x : JSON) : List Char :=
  match x with
  | .obj f =>
    match getKey "date" f with
    | some (.str s) => s.data
    | _ => []
  | _ => []

/-- The sort relation used by `sorted(self['raw_datatags'], key=lambda x: x['date'])`:
comparison of the date strings by code point. -/
def dateRel (a b : JSON) : Prop := lexLe (dateChars a) (dateChars b) = true

instance : DecidableRel dateRel := fun a b => by unfold dateRel; exact inferInstance

/-- Models `x.get('tag') or x['label']`: the tag when present and truthy, otherwise
the label (whose absence raises `KeyError`). -/
def keyOfEntry (x : JSON) : Except PyError JSON := do
  let t ← jsonGet x "tag"
  match t with
  | some tv => if truthy tv then pure tv else jsonIndex x "label"
  | none => jsonIndex x "label"

/-- Models `capsule_datetime_to_utc_aware(x['date']).date()`: `strptime` only
accepts a string argument. -/
def dateOfEntry (x : JSON) : Except PyError PyDate := do
  match ← jsonIndex x "date" with
  | .str s => (capsule_datetime_to_utc_aware s).map DateTime.date
  | _ => .error .typeError

/-- One date-tag entry of the `datatags` generator: the key
(`x.get('tag') or x['label']`) is built before the value. -/
def pairEntry (x : JSON) : Except PyError (JSON × PyDate) := do
  let k ← keyOfEntry x
  let d ← dateOfEntry x
  pure (k, d)

/-- The `datatags` property before the `except KeyError` conversion:
`sorted` first materialises every sort key `x['date']` left to right (a
missing key raises `KeyError`, a non-string where another is a string makes
the keys incomparable — `TypeError`; an all-non-string key list also ends in
`TypeError`, at the first `strptime`), then the sorted entries are turned
into (tag-or-label, date) pairs and collected into an `OrderedDict`. -/
def datatagsCore (r : RawRecord) : Except PyError (List (JSON × PyDate)) := do
  let v ← match getKey "raw_datatags" r with
    | some v => pure v
    | none => .error (.keyError "raw_datatags")
  let xs ← asList v
  let ds ← mapE (fun x => jsonIndex x "date") xs
  if ds.all isStr then do
    let pairs ← mapE pairEntry (List.insertionSort dateRel xs)
    pure (pairs.foldl (fun acc kv => odInsert kv.1 kv.2 acc) [])
  else .error .typeError

/-- The `datatags` property: `datatagsCore` with `KeyError` converted to
`AttributeError('datatags')`. -/
def datatags (r : RawRecord) : Except PyError (List (JSON × PyDate)) :=
  wrapKeyError "datatags" (datatagsCore r)

/-- Enrichment `load_customfields_from_api`: split the fetched entries by presence of a
`date` key into `raw_customfields` and `raw_datatags` on the entity's own
backing record. -/
def load_customfields_from_api (r : RawRecord) (customfields : List RawRecord) : RawRecord :=
  upsert "raw_datatags"
    (.arr ((customfields.filter fun x => (getKey "date" x).isSome).map .obj))
    (upsert "raw_customfields"
      (.arr ((customfields.filter fun x => !(getKey "date" x).isSome).map .obj)) r)

/-- Specification-side description of the key a date-tag entry is filed
under: the entry's `tag` when present and truthy, otherwise its `label`
(defaulting to `null` off the shapes the claims quantify over). -/
def entryKey (x : JSON) : JSON :=
  match x with
  | .obj f =>
    (match getKey "tag" f with
     | some t => if truthy t then t else (getKey "label" f).getD .null
     | none => (getKey "label" f).getD .null)
  | _ => .null

/-- Specification-side description of the date component a date-tag entry
carries (defaulting to a zero date off the shapes the claims quantify over). -/
def entryDate (x : JSON) : PyDate :=
  match x with
  | .obj f =>
    (match getKey "date" f with
     | some (.str s) =>
       (match strptimeCapsule s.data with
        | some dt => dt.date
        | none => ⟨0, 0, 0⟩)
     | _ => ⟨0, 0, 0⟩)
  | _ => ⟨0, 0, 0⟩

/-- The (key, date) pair a well-formed date-tag entry contributes. -/
def entrySpec (x : JSON) : JSON × PyDate := (entryKey x, entryDate x)

/-- A well-formed date-tag entry: a mapping whose `date` value is a string
in the fixed capsule format (accepted by `strptime`), carrying a truthy
`tag` or at least a `label`. -/
def entryOkB (x : JSON) : Bool :=
  match x with
  | .obj f =>
    (match getKey "date" f with
     | some (.str s) => (strptimeCapsule s.data).isSome
     | _ => false)
    && (match getKey "tag" f with
        | some t => truthy t || (getKey "label" f).isSome
        | none => (getKey "label" f).isSome)
  | _ => false

/-- Pairwise distinctness of dict keys under Python `==` (in both
orientations, so that it is permutation-invariant). -/
def keysDistinctB : List JSON → Bool
  | [] => true
  | k :: ks => ks.all (fun k2 => !pyEq k k2 && !pyEq k2 k) && keysDistinctB ks

/-- A custom-field entry that is a mapping carrying a `label`. -/
def hasLabelB (x : JSON) : Bool :=
  match x with
  | .obj f => (getKey "label" f).isSome
  | _ => false

/-- A custom-field entry (a mapping) with none of the three value keys
`text` / `boolean` / `number`. -/
def lacksValueKeysB (x : JSON) : Bool :=
  match x with
  | .obj f =>
    !(getKey "text" f).isSome && !(getKey "boolean" f).isSome && !(getKey "number" f).isSome
  | _ => false

end CustomFieldsMixin

/-! ### Numbers: Python `int(...)` and `decimal.Decimal(...)` -/

def digitsToNat : List Char → ℕ :=
  List.foldl (fun n c => n * 10 + digitVal c) 0

/-- Python `int(s)` for a string: optional sign followed by digits.
Scope: surrounding whitespace and `_` digit separators are not modelled. -/
def parseIntStr (s : String) : Option ℤ :=
  match s.data with
  | '-' :: ds => if !ds.isEmpty && ds.all isDigitChar then some (-(digitsToNat ds : ℤ)) else none
  | '+' :: ds => if !ds.isEmpty && ds.all isDigitChar then some (digitsToNat ds : ℤ) else none
  | ds => if !ds.isEmpty && ds.all isDigitChar then some (digitsToNat ds : ℤ) else none

/-- Models `Decimal(s)` for a string: optional sign, integer digits, optional
fractional digits — exact value.  Scope: exponent notation and the special
values (`NaN`, `Infinity`) are not modelled. -/
def splitDot : List Char → List Char × Option (List Char)
  | [] => ([], none)
  | c :: t => if c = '.' then ([], some t) else
      let (i, f) := splitDot t
      (c :: i, f)

def parseDecimalCore (cs : List Char) : Option ℚ :=
  let (ip, fp) := splitDot cs
  match fp with
  | none =>
    if !ip.isEmpty && ip.all isDigitChar then some (digitsToNat ip : ℚ) else none
  | some fr =>
    if !(ip ++ fr).isEmpty && ip.all isDigitChar && fr.all isDigitChar then
      some ((digitsToNat (ip ++ fr) : ℚ) / 10 ^ fr.length)
    else none

def parseDecimalStr (s : String) : Option ℚ :=
  match s.data with
  | '-' :: ds => (parseDecimalCore ds).map Neg.neg
  | '+' :: ds => parseDecimalCore ds
  | ds => parseDecimalCore ds

/-- Python `int(x)`: string parse (`ValueError` on failure), truncation
toward zero for numbers, `True ↦ 1`. -/
def pyInt (x : JSON) : Except PyError ℤ :=
  match x with
  | .str s =>
    match parseIntStr s with
    | some n => .ok n
    | none => .error .valueError
  | .num q => .ok (q.num.tdiv q.den)
  | .bool b => .ok (if b then 1 else 0)
  | _ => .error .typeError

/-- Models `decimal.Decimal(x)`: string parse (`InvalidOperation` on failure,
modelled as `valueError`), numbers taken exactly. -/
def pyDecimal (x : JSON) : Except PyError ℚ :=
  match x with
  | .str s =>
    match parseDecimalStr s with
    | some q => .ok q
    | none => .error .valueError
  | .num q => .ok q
  | .bool b => .ok (if b then 1 else 0)
  | _ => .error .typeError

/-! ### Decimal context arithmetic

`decimal`'s default context computes every arithmetic result to 28
significant digits, rounding half-even (`ROUND_HALF_EVEN`).  Construction
from a string is exact and unbounded; only the operations round.  The
functions below model the *numeric value* of context multiplication and
division on exact rationals. -/

/-- The default `decimal` context precision. -/
def decimalPrec : ℕ := 28

/-- Number of decimal digits of a natural number (0 for 0). -/
def digits10 (n : ℕ) : ℕ := (Nat.digits 10 n).length

/-- The adjusted decimal exponent of a non-zero rational: the unique `e`
with `10 ^ e ≤ |q| < 10 ^ (e + 1)`, computed from the digit counts of the
reduced numerator and denominator (junk 0 at `q = 0`, guarded by the
caller). -/
def decExp (q : ℚ) : ℤ :=
  let a := q.num.natAbs
  let b := q.den
  let e : ℤ := (digits10 a : ℤ) - (digits10 b : ℤ)
  if 0 ≤ e then (if b * 10 ^ e.toNat ≤ a then e else e - 1)
  else (if b ≤ a * 10 ^ (-e).toNat then e else e - 1)

/-- Round a rational to the nearest integer, ties to even
(`ROUND_HALF_EVEN`; on negative values this floor-based form agrees with
rounding the unsigned coefficient). -/
def rndHalfEven (r : ℚ) : ℤ :=
  let f := ⌊r⌋
  if r - f < 1 / 2 then f
  else if 1 / 2 < r - f then f + 1
  else if f % 2 = 0 then f else f + 1

/-- The numeric value of rounding `q` to `prec` significant decimal digits,
half-even: the unit in the last place is `10 ^ (decExp q + 1 - prec)`. -/
def roundSigDec (prec : ℕ) (q : ℚ) : ℚ :=
  if q = 0 then 0
  else
    let shift : ℤ := (prec : ℤ) - 1 - decExp q
    ((rndHalfEven (q * 10 ^ shift) : ℚ)) * 10 ^ (-shift)

/-- Context multiplication: exact product, rounded to 28 significant
digits. -/
def decMul (a b : ℚ) : ℚ := roundSigDec decimalPrec (a * b)

/-- Context division: exact quotient, rounded to 28 significant digits
(the divide-by-zero error case never arises here: the only divisor used is
the literal 100). -/
def decDiv (a b : ℚ) : ℚ := roundSigDec decimalPrec (a / b)

/-! ### Opportunity -/

namespace Opportunity

/-- Containment test `'actualCloseDate' not in self`. -/
def «open» (r : RawRecord) : Bool := !(getKey "actualCloseDate" r).isSome

/-- Models `int(self['probability'])` (the raw key is required: a missing key is a
plain `KeyError`). -/
def probability (r : RawRecord) : Except PyError ℤ := do
  pyInt (← jsonIndex (.obj r) "probability")

/-- Models `Decimal(self['value'])`, with a missing key (`KeyError`) defaulted to
`Decimal(0)`. -/
def value (r : RawRecord) : Except PyError ℚ :=
  match getKey "value" r with
  | some v => pyDecimal v
  | none => .ok 0

/-- Product `self.value * self.probability / 100` (left to right), in
`Decimal` default-context arithmetic: the product and the quotient are each
rounded to 28 significant digits. -/
def weighted_value (r : RawRecord) : Except PyError ℚ := do
  let v ← value r
  let p ← probability r
  pure (decDiv (decMul v (p : ℚ)) 100)

/-- Models `capsule_datetime_to_utc_aware(self['expectedCloseDate'])` with
`KeyError` converted to a bare `AttributeError`. -/
def expectedCloseDate (r : RawRecord) : Except PyError DateTime :=
  match getKey "expectedCloseDate" r with
  | some (.str s) => capsule_datetime_to_utc_aware s
  | some _ => .error .typeError
  | none => .error (.attributeError "")

/-- Models `capsule_datetime_to_utc_aware(self['actualCloseDate'])` with
`KeyError` converted to a bare `AttributeError`. -/
def actualCloseDate (r : RawRecord) : Except PyError DateTime :=
  match getKey "actualCloseDate" r with
  | some (.str s) => capsule_datetime_to_utc_aware s
  | some _ => .error .typeError
  | none => .error (.attributeError "")

/-- Models `Opportunity.__getattr__`: `customfields` itself is refused (to avoid
recursion), then the raw record keys, then the custom-field labels. -/
def getattr (r : RawRecord) (element : String) : Except PyError JSON :=
  if element = "customfields" then .error (.attributeError "")
  else match getKey element r with
  | some v => .ok v
  | none =>
    match CustomFieldsMixin.customfields r with
    | .ok cf =>
      match cf.find? (fun kv => pyEq kv.1 (.str element)) with
      | some kv => .ok kv.2
      | none => .error (.attributeError "")
    | .error e => .error e

/-- Models `any(x for x in tasks if x.get('opportunityId') != self.id)`: the
generator yields the tasks whose `opportunityId` (via `.get`, so `None`
when absent) differs from `self.id`, and `any` succeeds at the first
*truthy* yielded task.  Both `x.get` and `self.id` are evaluated lazily,
per iteration, left to right. -/
def anyTaskMismatch (r : RawRecord) : List JSON → Except PyError Bool
  | [] => .ok false
  | x :: rest => do
    let o ← jsonGet x "opportunityId"
    let idv ← getattr r "id"
    if !pyEq (o.getD .null) idv && truthy x then .ok true
    else anyTaskMismatch r rest

/-- Models `load_tasks_from_api`: raise a bare `Exception` when some (truthy) task
is not owned by this opportunity, otherwise store the full list under
`raw_tasks`. -/
def load_tasks_from_api (r : RawRecord) (tasks : List JSON) : Except PyError RawRecord := do
  if ← anyTaskMismatch r tasks then .error .exceptionErr
  else pure (upsert "raw_tasks" (.arr tasks) r)

end Opportunity

/-! ### Party, Person -/

def asStr : JSON → Except PyError String
  | .str s => .ok s
  | _ => .error .typeError

namespace Party

/-- The `contacts` property: capsule returns an empty string when no contact
details are provided, so a falsy value is replaced by `{}`. -/
def contacts (r : RawRecord) : Except PyError JSON :=
  match getKey "contacts" r with
  | some v => .ok (if truthy v then v else .obj [])
  | none => .error (.keyError "contacts")

/-- The `emails` property: `self.contacts.get('email')`; falsy (absent or
empty) raises `AttributeError('emails')`; a single mapping is wrapped into a
one-element list; each element is passed to the `Email` constructor (a dict
copy). -/
def emails (r : RawRecord) : Except PyError (List RawRecord) := do
  let c ← contacts r
  match ← jsonGet c "email" with
  | some v =>
    if truthy v then
      match v with
      | .obj f => pure [f]
      | .arr l => mapE asRecord l
      | _ => .error .typeError
    else .error (.attributeError "emails")
  | none => .error (.attributeError "emails")

/-- The `phone_numbers` property, symmetric to `emails`. -/
def phone_numbers (r : RawRecord) : Except PyError (List RawRecord) := do
  let c ← contacts r
  match ← jsonGet c "phone" with
  | some v =>
    if truthy v then
      match v with
      | .obj f => pure [f]
      | .arr l => mapE asRecord l
      | _ => .error .typeError
    else .error (.attributeError "phone_numbers")
  | none => .error (.attributeError "phone_numbers")

/-- Models `Party.__getattr__`: the literal name `customfields` is refused
(to avoid recursion), then the raw record keys, then the custom-field
labels; errors raised while deriving `customfields` (its `AttributeError`,
or a `ValueError` from a malformed entry) propagate. -/
def getattr (r : RawRecord) (element : String) : Except PyError JSON :=
  if element = "customfields" then .error (.attributeError element)
  else match getKey element r with
  | some v => .ok v
  | none =>
    match CustomFieldsMixin.customfields r with
    | .ok cf =>
      match cf.find? (fun kv => pyEq kv.1 (.str element)) with
      | some kv => .ok kv.2
      | none => .error (.attributeError element)
    | .error e => .error e

/-- Models `getattr(self, attr, None)` for the two name properties
(`first_name` / `last_name`): the property reads the raw camel-case key
`rawKey` and raises `AttributeError` when it is absent, which sends CPython
to `Party.__getattr__` (the raw snake-case key, then the custom-fields
mapping); only when that also raises `AttributeError` does `getattr`'s
`None` default apply — any other exception propagates. -/
def nameFieldLookup (r : RawRecord) (rawKey attr : String) : Except PyError (Option JSON) :=
  match getKey rawKey r with
  | some v => .ok (some v)
  | none =>
    match getattr r attr with
    | .ok v => .ok (some v)
    | .error (.attributeError _) => .ok none
    | .error e => .error e

end Party

/-- Models `' '.join(strings)`. -/
def joinSpace : List String → String
  | [] => ""
  | [s] => s
  | s :: rest => s ++ " " ++ joinSpace rest

namespace Person

/-- Models `Person.name`: the truthy ones among
`getattr(self, 'first_name', None)` / `getattr(self, 'last_name', None)`
(each resolving through the `first_name` / `last_name` property and, when
the raw camel-case key is absent, through `Party.__getattr__`'s
custom-field fallback) joined with a space (`' '.join` requires strings);
an empty result raises a bare `Exception` whose message interpolates
`self.id` (so a missing `id` raises `KeyError` instead). -/
def name (r : RawRecord) : Except PyError String := do
  let fn ← Party.nameFieldLookup r "firstName" "first_name"
  let ln ← Party.nameFieldLookup r "lastName" "last_name"
  let parts := ([fn, ln].filterMap id).filter truthy
  let strs ← mapE asStr parts
  let ret := joinSpace strs
  if ret = "" then
    match getKey "id" r with
    | some _ => .error .exceptionErr
    | none => .error (.keyError "id")
  else pure ret

end Person

/-! ### CapsuleAPI -/

/-- The result of `CapsuleAPI.party`: which wrapper key was present decides
the entity variant. -/
inductive PartyResult where
  | person (r : RawRecord)
  | organisation (r : RawRecord)

namespace CapsuleAPI

/-- The shape normalization applied at every collection-typed response
boundary (`opportunities`, `milestones`, `users`, …):
`if not result: return []` / `if isinstance(result, dict): result = [result]`.
Absent (`.get` returned `None`) or falsy values become the empty list, a
single mapping becomes a one-element list, anything else is left unchanged. -/
def toList (v : Option JSON) : JSON :=
  match v with
  | none => .arr []
  | some x =>
    if truthy x then
      match x with
      | .obj f => .arr [.obj f]
      | y => y
    else .arr []

/-- Models `CapsuleAPI.party`: build a `Person` from the `person` wrapper key,
falling back (`except KeyError`) to an `Organisation` from the
`organisation` key. -/
def party (result : RawRecord) : Except PyError PartyResult :=
  match getKey "person" result with
  | some v => (asRecord v).map .person
  | none =>
    match getKey "organisation" result with
    | some v => (asRecord v).map .organisation
    | none => .error (.keyError "organisation")

end CapsuleAPI

/-! ### Concrete records used by the claims -/

/-- The raw opportunity record of the spec's end-to-end scenario. -/
def sampleOpportunity : RawRecord :=
  [("id", .num 7), ("createdOn", .str "2020-01-01T00:00:00Z"),
   ("updatedOn", .str "2020-01-02T00:00:00Z"), ("milestoneId", .str "3"),
   ("probability", .str "50"), ("value", .str "200.00")]

/-- The raw party record of the spec's end-to-end scenario:
`{"id": 42, "contacts": ""}`. -/
def samplePerson42 : RawRecord := [("id", .num 42), ("contacts", .str "")]

/-- Three date-tag entries in which the tag `"a"` occurs twice, with the
oldest and the newest date. -/
def dupTagEntries : List JSON :=
  [.obj [("tag", .str "a"), ("date", .str "2021-01-01T00:00:00Z")],
   .obj [("tag", .str "b"), ("date", .str "2020-06-01T00:00:00Z")],
   .obj [("tag", .str "a"), ("date", .str "2020-01-01T00:00:00Z")]]

/-- An entity enriched with `dupTagEntries` as its `raw_datatags`. -/
def dupTagRecord : RawRecord := [("raw_datatags", .arr dupTagEntries)]

/-- Two well-formed date-tag entries with distinct tags, newest first. -/
def twoTagEntries : List JSON :=
  [.obj [("tag", .str "b"), ("date", .str "2021-02-03T00:00:00Z")],
   .obj [("label", .str "Signed"), ("date", .str "2020-06-01T00:00:00Z")]]

/-- An entity enriched with `twoTagEntries` as its `raw_datatags`. -/
def twoTagRecord : RawRecord := [("raw_datatags", .arr twoTagEntries)]

/-- A person record whose `firstName` is present but empty. -/
def emptyNamePerson : RawRecord := [("id", .num 1), ("firstName", .str "")]

/-- An opportunity record with id 7 and no further keys. -/
def oppSeven : RawRecord := [("id", .num 7)]

/-- A non-empty task record with no `opportunityId` key. -/
def strayTask : JSON := .obj [("description", .str "x")]

/-- The `opportunityId` key of a task record, when the task is a mapping. -/
def taskOppId (x : JSON) : Option JSON :=
  match x with
  | .obj f => getKey "opportunityId" f
  | _ => none

/-- An opportunity record with a probability but no `value` key. -/
def noValueOpp : RawRecord := [("probability", .str "50")]

/-- A single-party response carrying a `person` wrapper key. -/
def personResponse : RawRecord := [("person", .obj samplePerson42)]

/-- An organisation record. -/
def acmeOrg : RawRecord := [("id", .num 9), ("name", .str "Acme")]

/-- A single-party response carrying only an `organisation` wrapper key. -/
def orgResponse : RawRecord := [("organisation", .obj acmeOrg)]

/-- A fetched custom-field list in which every entry carries a `date` key. -/
def allDateEntries : List RawRecord :=
  [[("label", .str "Signed"), ("date", .str "2020-06-01T00:00:00Z")]]

/-- A plain entity record with no custom-field keys at all. -/
def plainEntity : RawRecord := [("id", .num 3)]

/-- An entity whose `raw_customfields` holds one entry with none of the
three value keys. -/
def badFieldsRec : RawRecord :=
  [("raw_customfields", .arr [.obj [("label", .str "E")]])]

/-- A person with neither raw name key, whose custom fields carry an entry
labelled `first_name`. -/
def bobPerson : RawRecord :=
  [("id", .num 1),
   ("raw_customfields", .arr [.obj [("label", .str "first_name"), ("text", .str "Bob")]])]

/-- A person record with both camel-case name keys present and non-empty. -/
def adaPerson : RawRecord :=
  [("id", .num 1), ("firstName", .str "Ada"), ("lastName", .str "Byron")]

/-- An opportunity whose `value` has 31 significant digits — more than the
28 the `Decimal` context keeps through arithmetic. -/
def bigValueOpp : RawRecord :=
  [("probability", .str "3"), ("value", .str "1.111111111111111111111111111111")]

/-! ## Lemmas: digits and lexicographic order on format-matching strings -/

theorem digitVal_le_nine {c : Char} (h : isDigitChar c = true) : digitVal c ≤ 9 := by
  simp only [isDigitChar, Bool.and_eq_true, decide_eq_true_eq] at h
  unfold digitVal; omega

theorem digitVal_lt {c d : Char} (hc : isDigitChar c = true) (hd : isDigitChar d = true)
    (h : c.toNat < d.toNat) : digitVal c < digitVal d := by
  simp only [isDigitChar, Bool.and_eq_true, decide_eq_true_eq] at hc hd
  unfold digitVal; omega

theorem lexLe_total : ∀ a b : List Char, lexLe a b = true ∨ lexLe b a = true
  | [], _ => Or.inl rfl
  | _ :: _, [] => Or.inr rfl
  | a :: as, b :: bs => by
    by_cases h1 : a.toNat < b.toNat
    · left; simp [lexLe, h1]
    · by_cases h2 : b.toNat < a.toNat
      · right; simp [lexLe, h2]
      · have ih := lexLe_total as bs
        simpa [lexLe, h1, h2] using ih

theorem lexLe_trans : ∀ a b c : List Char,
    lexLe a b = true → lexLe b c = true → lexLe a c = true
  | [], _, _, _, _ => rfl
  | _ :: _, [], _, h1, _ => by simp [lexLe] at h1
  | _ :: _, _ :: _, [], _, h2 => by simp [lexLe] at h2
  | a :: as, b :: bs, c :: cs, h1, h2 => by
    simp only [lexLe] at h1 h2 ⊢
    by_cases hab : a.toNat < b.toNat
    · rw [if_pos hab] at h1
      by_cases hbc : b.toNat < c.toNat
      · rw [if_pos (by omega)]
      · rw [if_neg hbc] at h2
        by_cases hcb : c.toNat < b.toNat
        · rw [if_pos hcb] at h2; simp at h2
        · rw [if_pos (by omega)]
    · rw [if_neg hab] at h1
      by_cases hba : b.toNat < a.toNat
      · rw [if_pos hba] at h1; simp at h1
      · rw [if_neg hba] at h1
        by_cases hbc : b.toNat < c.toNat
        · rw [if_pos (by omega)]
        · rw [if_neg hbc] at h2
          by_cases hcb : c.toNat < b.toNat
          · rw [if_pos hcb] at h2; simp at h2
          · rw [if_neg hcb] at h2
            rw [if_neg (by omega), if_neg (by omega)]
            exact lexLe_trans as bs cs h1 h2

theorem keyAux_lower : ∀ (p cs : List Char) (n : ℕ), matchesPat p cs = true →
    n * 10 ^ numD p ≤ keyAux p cs n
  | [], cs, n, _ => by simp [keyAux, numD]
  | p :: ps, cs, n, h => by
    match cs with
    | [] => simp [matchesPat] at h
    | c :: cs' =>
      simp only [matchesPat, Bool.and_eq_true] at h
      obtain ⟨hc, hrest⟩ := h
      by_cases hp : p = 'D'
      · subst hp
        simp only [keyAux, if_pos]
        have step : n * 10 ^ numD ('D' :: ps) ≤ (n * 10 + digitVal c) * 10 ^ numD ps := by
          have : numD ('D' :: ps) = 1 + numD ps := by simp [numD]
          rw [this]
          calc n * 10 ^ (1 + numD ps) = n * 10 * 10 ^ numD ps := by ring
            _ ≤ (n * 10 + digitVal c) * 10 ^ numD ps :=
              Nat.mul_le_mul_right _ (Nat.le_add_right _ _)
        exact le_trans step (keyAux_lower ps cs' _ hrest)
      · have : numD (p :: ps) = numD ps := by simp [numD, hp]
        rw [this]
        simp only [keyAux, if_neg hp]
        exact keyAux_lower ps cs' n hrest

theorem keyAux_upper : ∀ (p cs : List Char) (n : ℕ), matchesPat p cs = true →
    keyAux p cs n < (n + 1) * 10 ^ numD p
  | [], cs, n, _ => by simp [keyAux, numD]
  | p :: ps, cs, n, h => by
    match cs with
    | [] => simp [matchesPat] at h
    | c :: cs' =>
      simp only [matchesPat, Bool.and_eq_true] at h
      obtain ⟨hc, hrest⟩ := h
      by_cases hp : p = 'D'
      · subst hp
        simp only [keyAux, if_pos]
        have hd : digitVal c ≤ 9 := digitVal_le_nine hc
        have ih := keyAux_upper ps cs' (n * 10 + digitVal c) hrest
        have step : (n * 10 + digitVal c + 1) * 10 ^ numD ps ≤ (n + 1) * 10 ^ numD ('D' :: ps) := by
          have : numD ('D' :: ps) = 1 + numD ps := by simp [numD]
          rw [this]
          calc (n * 10 + digitVal c + 1) * 10 ^ numD ps
              ≤ ((n + 1) * 10) * 10 ^ numD ps := Nat.mul_le_mul_right _ (by omega)
            _ = (n + 1) * 10 ^ (1 + numD ps) := by ring
        exact lt_of_lt_of_le ih step
      · have : numD (p :: ps) = numD ps := by simp [numD, hp]
        rw [this]
        simp only [keyAux, if_neg hp]
        exact keyAux_upper ps cs' n hrest

theorem keyAux_mono : ∀ (p a b : List Char) (n : ℕ),
    matchesPat p a = true → matchesPat p b = true → lexLe a b = true →
    keyAux p a n ≤ keyAux p b n
  | [], a, b, n, ha, hb, _ => by
    simp only [matchesPat, List.isEmpty_iff] at ha hb
    subst ha; subst hb; simp [keyAux]
  | p :: ps, a, b, n, ha, hb, hl => by
    match a, b with
    | [], _ => simp [matchesPat] at ha
    | _ :: _, [] => simp [matchesPat] at hb
    | ca :: as, cb :: bs =>
      simp only [matchesPat, Bool.and_eq_true] at ha hb
      obtain ⟨hca, has⟩ := ha
      obtain ⟨hcb, hbs⟩ := hb
      simp only [lexLe] at hl
      by_cases hp : p = 'D'
      · subst hp
        rw [if_pos rfl] at hca hcb
        rcases Nat.lt_trichotomy ca.toNat cb.toNat with hlt | heq | hgt
        · have h1 : digitVal ca < digitVal cb := digitVal_lt hca hcb hlt
          simp only [keyAux, if_pos]
          have hu := keyAux_upper ps as (n * 10 + digitVal ca) has
          have hlo := keyAux_lower ps bs (n * 10 + digitVal cb) hbs
          have hstep : (n * 10 + digitVal ca + 1) * 10 ^ numD ps
              ≤ (n * 10 + digitVal cb) * 10 ^ numD ps :=
            Nat.mul_le_mul_right _ (by omega)
          omega
        · have h1 : digitVal ca = digitVal cb := by unfold digitVal; omega
          rw [if_neg (by omega), if_neg (by omega)] at hl
          simp only [keyAux, if_pos]
          rw [h1]
          exact keyAux_mono ps as bs _ has hbs hl
        · rw [if_neg (by omega), if_pos hgt] at hl; simp at hl
      · rw [if_neg hp] at hca hcb
        have hca' : ca = p := by simpa using hca
        have hcb' : cb = p := by simpa using hcb
        subst hca'; subst hcb'
        rw [if_neg (by omega), if_neg (by omega)] at hl
        simp only [keyAux, if_neg hp]
        exact keyAux_mono ps as bs n has hbs hl

theorem matchesPat_nil : matchesPat [] cs = cs.isEmpty := rfl

theorem matchesPat_cons {p : Char} {ps : List Char} {c : Char} {cs : List Char} :
    matchesPat (p :: ps) (c :: cs)
      = ((if p = 'D' then isDigitChar c else decide (c = p)) && matchesPat ps cs) := rfl

theorem keyAux_nil {cs : List Char} {n : ℕ} : keyAux [] cs n = n := rfl

theorem keyAux_cons {p : Char} {ps : List Char} {c : Char} {cs : List Char} {n : ℕ} :
    keyAux (p :: ps) (c :: cs) n = keyAux ps cs (if p = 'D' then n * 10 + digitVal c else n) := rfl

theorem matchesPat_capsulePat {y1 y2 y3 y4 o1 o2 d1 d2 h1 h2 i1 i2 s1 s2 : Char} :
    matchesPat capsulePat
        [y1, y2, y3, y4, '-', o1, o2, '-', d1, d2, 'T', h1, h2, ':', i1, i2, ':', s1, s2, 'Z']
      = (isDigitChar y1 && (isDigitChar y2 && (isDigitChar y3 && (isDigitChar y4 &&
          (isDigitChar o1 && (isDigitChar o2 && (isDigitChar d1 && (isDigitChar d2 &&
          (isDigitChar h1 && (isDigitChar h2 && (isDigitChar i1 && (isDigitChar i2 &&
          (isDigitChar s1 && (isDigitChar s2 && true)))))))))))))) := rfl

theorem keyAux_capsulePat {y1 y2 y3 y4 o1 o2 d1 d2 h1 h2 i1 i2 s1 s2 : Char} {n : ℕ} :
    keyAux capsulePat
        [y1, y2, y3, y4, '-', o1, o2, '-', d1, d2, 'T', h1, h2, ':', i1, i2, ':', s1, s2, 'Z'] n
      = ((((((((((((((n * 10 + digitVal y1) * 10 + digitVal y2) * 10 + digitVal y3) * 10
          + digitVal y4) * 10 + digitVal o1) * 10 + digitVal o2) * 10 + digitVal d1) * 10
          + digitVal d2) * 10 + digitVal h1) * 10 + digitVal h2) * 10 + digitVal i1) * 10
          + digitVal i2) * 10 + digitVal s1) * 10 + digitVal s2) := rfl

set_option maxHeartbeats 3200000 in
/-- A successfully parsed capsule date-time string matches the fixed
pattern, its digit key is the concatenation of its fields, and each
two-digit field is below 100. -/
theorem strptimeCapsule_facts {cs : List Char} {dt : DateTime}
    (h : strptimeCapsule cs = some dt) :
    matchesPat capsulePat cs = true ∧
    keyAux capsulePat cs 0 =
      ((((dt.year * 100 + dt.month) * 100 + dt.day) * 100 + dt.hour) * 100 + dt.minute) * 100
        + dt.second ∧
    dt.month ≤ 99 ∧ dt.day ≤ 99 ∧ dt.hour ≤ 99 ∧ dt.minute ≤ 99 ∧ dt.second ≤ 99 := by
  unfold strptimeCapsule at h
  split at h
  · rename_i y1 y2 y3 y4 c1 o1 o2 c2 d1 d2 c3 hh1 hh2 c4 i1 i2 c5 s1 s2 c6
    dsimp only at h
    split at h
    · rename_i hcond
      split at h
      · injection h with hdt
        subst hdt
        obtain ⟨hc1, hc2, hc3, hc4, hc5, hc6, hy1, hy2, hy3, hy4,
          ho1, ho2, hd1, hd2, hhh1, hhh2, hi1, hi2, hs1, hs2⟩ := hcond
        subst hc1; subst hc2; subst hc3; subst hc4; subst hc5; subst hc6
        refine ⟨?_, ?_, ?_, ?_, ?_, ?_, ?_⟩
        · rw [matchesPat_capsulePat]
          simp [hy1, hy2, hy3, hy4, ho1, ho2, hd1, hd2, hhh1, hhh2, hi1, hi2, hs1, hs2]
        · rw [keyAux_capsulePat]
          simp only [num4, num2]
          ring
        all_goals
          have b1 := digitVal_le_nine ho1
          have b2 := digitVal_le_nine ho2
          have b3 := digitVal_le_nine hd1
          have b4 := digitVal_le_nine hd2
          have b5 := digitVal_le_nine hhh1
          have b6 := digitVal_le_nine hhh2
          have b7 := digitVal_le_nine hi1
          have b8 := digitVal_le_nine hi2
          have b9 := digitVal_le_nine hs1
          have b10 := digitVal_le_nine hs2
          simp only [num2]
          omega
      · exact Option.noConfusion h
    · exact Option.noConfusion h
  · exact Option.noConfusion h

/-- Lexicographic order of two capsule date-time strings is reflected in
calendar order of their date components. -/
theorem strptime_le_of_lexLe {a b : List Char} {da db : DateTime}
    (ha : strptimeCapsule a = some da) (hb : strptimeCapsule b = some db)
    (hl : lexLe a b = true) : PyDate.le da.date db.date := by
  obtain ⟨hma, hka, hba1, hba2, hba3, hba4, hba5⟩ := strptimeCapsule_facts ha
  obtain ⟨hmb, hkb, hbb1, hbb2, hbb3, hbb4, hbb5⟩ := strptimeCapsule_facts hb
  have hk := keyAux_mono capsulePat a b 0 hma hmb hl
  rw [hka, hkb] at hk
  simp only [PyDate.le, DateTime.date]
  omega

/-! ## Lemmas: Except plumbing, dict construction, record update -/

theorem ok_bind {α β : Type} (a : α) (f : α → Except PyError β) :
    (Except.ok a >>= f) = f a := rfl

theorem except_pure {α : Type} (a : α) : (pure a : Except PyError α) = .ok a := rfl

theorem error_bind {α β : Type} (e : PyError) (f : α → Except PyError β) :
    ((Except.error e : Except PyError α) >>= f) = .error e := rfl

theorem mapE_ok {α β : Type} {g : α → Except PyError β} {f : α → β} :
    ∀ {l : List α}, (∀ x ∈ l, g x = .ok (f x)) → mapE g l = .ok (l.map f)
  | [], _ => rfl
  | a :: l, h => by
    have ih := mapE_ok (l := l) (fun x hx => h x (List.mem_cons_of_mem a hx))
    simp only [mapE, h a (List.mem_cons_self a l), ok_bind, ih, except_pure, List.map_cons]

theorem odInsert_fresh {α : Type} {k : JSON} {v : α} :
    ∀ {acc : List (JSON × α)}, (∀ q ∈ acc, pyEq q.1 k = false) →
      odInsert k v acc = acc ++ [(k, v)]
  | [], _ => rfl
  | (k2, v2) :: acc, h => by
    have h1 := h (k2, v2) (List.mem_cons_self _ _)
    simp only [odInsert, h1, Bool.false_eq_true, if_false, List.cons_append, List.cons.injEq,
      true_and]
    exact odInsert_fresh (fun q hq => h q (List.mem_cons_of_mem _ hq))

theorem foldl_odInsert_eq {α : Type} :
    ∀ (pairs acc : List (JSON × α)),
      List.Pairwise (fun p q => pyEq p.1 q.1 = false ∧ pyEq q.1 p.1 = false) pairs →
      (∀ p ∈ pairs, ∀ q ∈ acc, pyEq q.1 p.1 = false) →
      pairs.foldl (fun a kv => odInsert kv.1 kv.2 a) acc = acc ++ pairs
  | [], acc, _, _ => by simp
  | p :: pairs, acc, hp, hacc => by
    simp only [List.foldl_cons]
    rw [odInsert_fresh (fun q hq => hacc p (List.mem_cons_self _ _) q hq)]
    rw [foldl_odInsert_eq pairs (acc ++ [p]) (List.pairwise_cons.mp hp).2 ?_]
    · simp
    · intro x hx q hq
      rcases List.mem_append.mp hq with hq | hq
      · exact hacc x (List.mem_cons_of_mem _ hx) q hq
      · have hq' : q = p := by simpa using hq
        subst hq'
        exact ((List.pairwise_cons.mp hp).1 x hx).1

theorem keysDistinctB_pairwise : ∀ {l : List JSON}, CustomFieldsMixin.keysDistinctB l = true →
    List.Pairwise (fun a b => pyEq a b = false ∧ pyEq b a = false) l
  | [], _ => List.Pairwise.nil
  | k :: ks, h => by
    simp only [CustomFieldsMixin.keysDistinctB, Bool.and_eq_true, List.all_eq_true] at h
    obtain ⟨h1, h2⟩ := h
    refine List.pairwise_cons.mpr ⟨fun b hb => ?_, keysDistinctB_pairwise h2⟩
    have h3 := h1 b hb
    simp only [Bool.and_eq_true, Bool.not_eq_true'] at h3
    exact h3

theorem getKey_upsert_self {α : Type} {k : String} (v : α) :
    ∀ l : List (String × α), getKey k (upsert k v l) = some v
  | [] => by simp [upsert, getKey]
  | (k2, v2) :: l => by
    by_cases h2 : k2 = k
    · simp [upsert, getKey, h2]
    · simp only [upsert, getKey, if_neg h2]
      exact getKey_upsert_self v l

theorem getKey_upsert_ne {α : Type} {k k' : String} (h : k' ≠ k) (v : α) :
    ∀ l : List (String × α), getKey k (upsert k' v l) = getKey k l
  | [] => by simp [upsert, getKey, h]
  | (k2, v2) :: l => by
    by_cases h2 : k2 = k'
    · subst h2
      simp [upsert, getKey, h]
    · simp only [upsert, if_neg h2, getKey]
      by_cases h3 : k2 = k
      · simp [h3]
      · simp only [if_neg h3]
        exact getKey_upsert_ne h v l

/-! ## Lemmas: well-formed date-tag entries -/

namespace CustomFieldsMixin

theorem entryOkB_elim {x : JSON} (h : entryOkB x = true) :
    ∃ f s dt, x = .obj f ∧ getKey "date" f = some (.str s) ∧ strptimeCapsule s.data = some dt := by
  match x with
  | .obj f =>
    simp only [entryOkB, Bool.and_eq_true] at h
    obtain ⟨h1, _⟩ := h
    split at h1
    · rename_i s hs
      obtain ⟨dt, hdt⟩ := Option.isSome_iff_exists.mp h1
      exact ⟨f, s, dt, rfl, hs, hdt⟩
    · simp at h1

theorem keyOfEntry_ok {x : JSON} (h : entryOkB x = true) :
    keyOfEntry x = .ok (entryKey x) := by
  match x with
  | .obj f =>
    simp only [entryOkB, Bool.and_eq_true] at h
    obtain ⟨-, h2⟩ := h
    simp only [keyOfEntry, jsonGet, ok_bind, entryKey]
    split at h2
    · rename_i t ht
      by_cases htr : truthy t = true
      · simp [htr, except_pure]
      · rw [Bool.not_eq_true] at htr
        simp only [htr, Bool.false_eq_true, if_false]
        simp only [htr, Bool.false_or] at h2
        obtain ⟨l, hl⟩ := Option.isSome_iff_exists.mp h2
        simp [jsonIndex, hl]
    · rename_i ht
      obtain ⟨l, hl⟩ := Option.isSome_iff_exists.mp h2
      simp [jsonIndex, hl]

theorem dateOfEntry_ok {x : JSON} (h : entryOkB x = true) :
    dateOfEntry x = .ok (entryDate x) := by
  obtain ⟨f, s, dt, hx, hd, hp⟩ := entryOkB_elim h
  subst hx
  simp only [dateOfEntry, jsonIndex, hd, ok_bind, capsule_datetime_to_utc_aware, hp,
    entryDate, Except.map]

theorem pairEntry_ok {x : JSON} (h : entryOkB x = true) :
    pairEntry x = .ok (entrySpec x) := by
  simp only [pairEntry, keyOfEntry_ok h, ok_bind, dateOfEntry_ok h, except_pure, entrySpec]

theorem jsonIndex_date_ok {x : JSON} (h : entryOkB x = true) :
    jsonIndex x "date" = .ok (.str (String.mk (dateChars x))) := by
  obtain ⟨f, s, dt, hx, hd, _⟩ := entryOkB_elim h
  subst hx
  simp [jsonIndex, hd, dateChars]

theorem entryDate_le_of_dateRel {x y : JSON} (hx : entryOkB x = true) (hy : entryOkB y = true)
    (hr : dateRel x y) : PyDate.le (entryDate x) (entryDate y) := by
  obtain ⟨f, s, dt, hfx, hd, hp⟩ := entryOkB_elim hx
  obtain ⟨g, t, du, hfy, he, hq⟩ := entryOkB_elim hy
  subst hfx; subst hfy
  have hcx : dateChars (.obj f) = s.data := by simp [dateChars, hd]
  have hcy : dateChars (.obj g) = t.data := by simp [dateChars, he]
  have hl : lexLe s.data t.data = true := by
    have hr' := hr
    unfold dateRel at hr'
    rwa [hcx, hcy] at hr'
  have hdx : entryDate (.obj f) = dt.date := by simp [entryDate, hd, hp]
  have hdy : entryDate (.obj g) = du.date := by simp [entryDate, he, hq]
  rw [hdx, hdy]
  exact strptime_le_of_lexLe hp hq hl

theorem datatagsCore_eval {r : RawRecord} {xs : List JSON}
    (hraw : getKey "raw_datatags" r = some (.arr xs))
    (hok : ∀ x ∈ xs, entryOkB x = true) :
    datatagsCore r = .ok
      (((List.insertionSort dateRel xs).map entrySpec).foldl
        (fun acc kv => odInsert kv.1 kv.2 acc) []) := by
  have hdates : mapE (fun x => jsonIndex x "date") xs
      = .ok (xs.map fun x => JSON.str (String.mk (dateChars x))) :=
    mapE_ok (fun x hx => jsonIndex_date_ok (hok x hx))
  have hall : ((xs.map fun x => JSON.str (String.mk (dateChars x))).all isStr) = true := by
    rw [List.all_eq_true]
    intro b hb
    obtain ⟨x, -, hxb⟩ := List.mem_map.mp hb
    subst hxb
    rfl
  have hpairs : mapE pairEntry (List.insertionSort dateRel xs)
      = .ok ((List.insertionSort dateRel xs).map entrySpec) :=
    mapE_ok (fun x hx => pairEntry_ok (hok x ((List.mem_insertionSort dateRel).mp hx)))
  unfold datatagsCore
  rw [hraw]
  simp only [except_pure, ok_bind, asList, hdates, hall, if_true, hpairs]

theorem datatags_eval {r : RawRecord} {xs : List JSON}
    (hraw : getKey "raw_datatags" r = some (.arr xs))
    (hok : ∀ x ∈ xs, entryOkB x = true) :
    datatags r = .ok
      (((List.insertionSort dateRel xs).map entrySpec).foldl
        (fun acc kv => odInsert kv.1 kv.2 acc) []) := by
  unfold datatags
  rw [datatagsCore_eval hraw hok]
  rfl

end CustomFieldsMixin

open CustomFieldsMixin in
/-- C2 counterexample: the record `{"raw_datatags": dupTagEntries}` — three
well-formed entries, the tag `"a"` occurring twice — yields a `datatags`
mapping whose iteration order is *not* ascending by date: the duplicate key
keeps its early position while receiving the latest date. -/
theorem claim_C2_counterexample :
    datatags dupTagRecord
      = .ok [(.str "a", ⟨2021, 1, 1⟩), (.str "b", ⟨2020, 6, 1⟩)] ∧
    dupTagEntries.all entryOkB = true ∧
    ¬ List.Chain' (fun p q : JSON × PyDate => PyDate.le p.2 q.2)
      [(.str "a", ⟨2021, 1, 1⟩), (.str "b", ⟨2020, 6, 1⟩)] := by
  refine ⟨rfl, rfl, ?_⟩
  rw [List.chain'_pair]
  decide

open CustomFieldsMixin in
/-- C2 (amended): for every entity whose backing record has a
`raw_datatags` list of well-formed entries (each a mapping with a `date`
string in the fixed `YYYY-MM-DDTHH:MM:SSZ` format and a truthy `tag` or a
`label`), *whose derived keys are pairwise distinct*, the `datatags`
accessor produces the mapping from tag-or-label to the date component of
the parsed date, and its iteration order is ascending by the underlying
date regardless of the insertion order of the entries. -/
theorem claim_C2 (r : RawRecord) (xs : List JSON)
    (hraw : getKey "raw_datatags" r = some (.arr xs))
    (hok : xs.all entryOkB = true)
    (hdist : keysDistinctB (xs.map entryKey) = true) :
    ∃ m, datatags r = .ok m ∧
      List.Perm m (xs.map entrySpec) ∧
      List.Chain' (fun p q : JSON × PyDate => PyDate.le p.2 q.2) m := by
  have hok' : ∀ x ∈ xs, entryOkB x = true := List.all_eq_true.mp hok
  have hperm : List.Perm (List.insertionSort dateRel xs) xs := List.perm_insertionSort dateRel xs
  have hpw : List.Pairwise (fun a b => pyEq a b = false ∧ pyEq b a = false) (xs.map entryKey) :=
    keysDistinctB_pairwise hdist
  have hpermmap : List.Perm ((List.insertionSort dateRel xs).map entryKey) (xs.map entryKey) :=
    hperm.map entryKey
  have hpw2 : List.Pairwise (fun a b => pyEq a b = false ∧ pyEq b a = false)
      ((List.insertionSort dateRel xs).map entryKey) :=
    (hpermmap.pairwise_iff (fun h => ⟨h.2, h.1⟩)).mpr hpw
  have hpw3 : List.Pairwise (fun p q => pyEq p.1 q.1 = false ∧ pyEq q.1 p.1 = false)
      ((List.insertionSort dateRel xs).map entrySpec) := by
    rw [List.pairwise_map] at hpw2 ⊢
    exact hpw2
  have hfold : ((List.insertionSort dateRel xs).map entrySpec).foldl
      (fun acc kv => odInsert kv.1 kv.2 acc) [] = (List.insertionSort dateRel xs).map entrySpec := by
    have hh := foldl_odInsert_eq ((List.insertionSort dateRel xs).map entrySpec) [] hpw3
      (by intro p _ q hq; simp at hq)
    simpa using hh
  refine ⟨(List.insertionSort dateRel xs).map entrySpec, ?_, hperm.map entrySpec, ?_⟩
  · rw [datatags_eval hraw hok', hfold]
  · haveI : IsTrans JSON dateRel := ⟨fun a b c => lexLe_trans _ _ _⟩
    haveI : IsTotal JSON dateRel := ⟨fun a b => lexLe_total _ _⟩
    have hsort : List.Pairwise dateRel (List.insertionSort dateRel xs) :=
      List.sorted_insertionSort dateRel xs
    have hsort2 : List.Pairwise (fun a b => PyDate.le (entryDate a) (entryDate b))
        (List.insertionSort dateRel xs) :=
      hsort.imp_of_mem (fun {a b} ha hb hr =>
        entryDate_le_of_dateRel (hok' a (hperm.subset ha)) (hok' b (hperm.subset hb)) hr)
    have hsort3 : List.Pairwise (fun p q : JSON × PyDate => PyDate.le p.2 q.2)
        ((List.insertionSort dateRel xs).map entrySpec) := by
      rw [List.pairwise_map]
      exact hsort2
    exact hsort3.chain'

open CustomFieldsMixin in
/-- C2 witness: the two-entry record `twoTagRecord` satisfies the
hypotheses, and the conclusion follows by the theorem. -/
theorem claim_C2_witness :
    (getKey "raw_datatags" twoTagRecord = some (.arr twoTagEntries) ∧
      twoTagEntries.all entryOkB = true ∧
      keysDistinctB (twoTagEntries.map entryKey) = true) ∧
    (∃ m, datatags twoTagRecord = .ok m ∧
      List.Perm m (twoTagEntries.map entrySpec) ∧
      List.Chain' (fun p q : JSON × PyDate => PyDate.le p.2 q.2) m) :=
  ⟨⟨rfl, rfl, rfl⟩, claim_C2 twoTagRecord twoTagEntries rfl rfl rfl⟩

/-! ## Lemmas: decimal context rounding -/

theorem digits10_pos {n : ℕ} (hn : n ≠ 0) : 0 < digits10 n := by
  unfold digits10
  rw [List.length_pos]
  exact Nat.digits_ne_nil_iff_ne_zero.mpr hn

theorem lt_pow_digits10 (n : ℕ) : n < 10 ^ digits10 n :=
  Nat.lt_base_pow_length_digits (by norm_num)

theorem pow_digits10_le {n : ℕ} (hn : n ≠ 0) : 10 ^ digits10 n ≤ 10 * n :=
  Nat.base_pow_length_digits_le 10 n (by norm_num) hn

/-- The adjusted exponent brackets the absolute value:
`10 ^ decExp q ≤ |q| < 10 ^ (decExp q + 1)`. -/
theorem decExp_spec {q : ℚ} (hq : q ≠ 0) :
    (10 : ℚ) ^ decExp q ≤ |q| ∧ |q| < (10 : ℚ) ^ (decExp q + 1) := by
  have hnum : q.num ≠ 0 := Rat.num_ne_zero.mpr hq
  have ha0 : q.num.natAbs ≠ 0 := Int.natAbs_ne_zero.mpr hnum
  have hb0 : q.den ≠ 0 := q.den_nz
  set a : ℕ := q.num.natAbs with ha_def
  set b : ℕ := q.den with hb_def
  have hbq : (0 : ℚ) < (b : ℚ) := by
    exact_mod_cast Nat.pos_of_ne_zero hb0
  have habs : |q| = (a : ℚ) / (b : ℚ) := by
    conv_lhs => rw [← Rat.num_div_den q]
    rw [abs_div, abs_of_pos (show (0 : ℚ) < (q.den : ℚ) from by exact_mod_cast q.pos)]
    congr 1
    rw [ha_def, Int.cast_natAbs]
    norm_cast
  have hda1 : 1 ≤ digits10 a := digits10_pos ha0
  have hdb1 : 1 ≤ digits10 b := digits10_pos hb0
  have hA1 : (a : ℚ) < (10 : ℚ) ^ (digits10 a : ℤ) := by
    rw [zpow_natCast]
    exact_mod_cast lt_pow_digits10 a
  have hB1 : (b : ℚ) < (10 : ℚ) ^ (digits10 b : ℤ) := by
    rw [zpow_natCast]
    exact_mod_cast lt_pow_digits10 b
  have hsplit10 : ∀ k : ℤ, (10 : ℚ) ^ k = 10 * (10 : ℚ) ^ (k - 1) := by
    intro k
    calc (10 : ℚ) ^ k = (10 : ℚ) ^ (1 + (k - 1)) := by ring_nf
      _ = 10 * (10 : ℚ) ^ (k - 1) := by
          rw [zpow_add₀ (by norm_num : (10 : ℚ) ≠ 0), zpow_one]
  have hA2 : (10 : ℚ) ^ ((digits10 a : ℤ) - 1) ≤ (a : ℚ) := by
    have h10 : (10 : ℚ) ^ (digits10 a : ℤ) ≤ 10 * (a : ℚ) := by
      rw [zpow_natCast]
      exact_mod_cast pow_digits10_le ha0
    rw [hsplit10] at h10
    linarith
  have hB2 : (10 : ℚ) ^ ((digits10 b : ℤ) - 1) ≤ (b : ℚ) := by
    have h10 : (10 : ℚ) ^ (digits10 b : ℤ) ≤ 10 * (b : ℚ) := by
      rw [zpow_natCast]
      exact_mod_cast pow_digits10_le hb0
    rw [hsplit10] at h10
    linarith
  set e0 : ℤ := (digits10 a : ℤ) - (digits10 b : ℤ) with he0
  -- the natural-number comparison in `decExp` agrees with the rational one
  have hbridge : (if 0 ≤ e0 then b * 10 ^ e0.toNat ≤ a else b ≤ a * 10 ^ (-e0).toNat)
      ↔ (10 : ℚ) ^ e0 * (b : ℚ) ≤ (a : ℚ) := by
    by_cases hsgn : 0 ≤ e0
    · rw [if_pos hsgn]
      have hz : (10 : ℚ) ^ e0 = (10 : ℚ) ^ e0.toNat := by
        rw [← zpow_natCast]
        congr 1
        omega
      rw [hz]
      constructor
      · intro h
        have h' : ((b * 10 ^ e0.toNat : ℕ) : ℚ) ≤ (a : ℚ) := by exact_mod_cast h
        push_cast at h'
        linarith
      · intro h
        have h' : ((b * 10 ^ e0.toNat : ℕ) : ℚ) ≤ (a : ℚ) := by push_cast; linarith
        exact_mod_cast h'
    · rw [if_neg hsgn]
      have hz : (10 : ℚ) ^ (-e0) = (10 : ℚ) ^ (-e0).toNat := by
        rw [← zpow_natCast]
        congr 1
        omega
      have hpos : (0 : ℚ) < (10 : ℚ) ^ (-e0) := zpow_pos (by norm_num) _
      constructor
      · intro h
        have h' : (b : ℚ) ≤ (a : ℚ) * (10 : ℚ) ^ (-e0) := by
          rw [hz]
          have h'' : ((b : ℕ) : ℚ) ≤ ((a * 10 ^ (-e0).toNat : ℕ) : ℚ) := by exact_mod_cast h
          push_cast at h''
          linarith
        calc (10 : ℚ) ^ e0 * (b : ℚ) ≤ (10 : ℚ) ^ e0 * ((a : ℚ) * (10 : ℚ) ^ (-e0)) :=
              mul_le_mul_of_nonneg_left h' (le_of_lt (zpow_pos (by norm_num) _))
          _ = (a : ℚ) * ((10 : ℚ) ^ e0 * (10 : ℚ) ^ (-e0)) := by ring
          _ = (a : ℚ) := by
              rw [← zpow_add₀ (by norm_num : (10 : ℚ) ≠ 0)]
              norm_num
      · intro h
        have h' : (b : ℚ) ≤ (a : ℚ) * (10 : ℚ) ^ (-e0) := by
          have := mul_le_mul_of_nonneg_left h (le_of_lt hpos)
          calc (b : ℚ) = (10 : ℚ) ^ (-e0) * ((10 : ℚ) ^ e0 * (b : ℚ)) := by
                rw [← mul_assoc, ← zpow_add₀ (by norm_num : (10 : ℚ) ≠ 0)]
                norm_num
            _ ≤ (10 : ℚ) ^ (-e0) * (a : ℚ) := this
            _ = (a : ℚ) * (10 : ℚ) ^ (-e0) := by ring
        rw [hz] at h'
        have h'' : ((b : ℕ) : ℚ) ≤ ((a * 10 ^ (-e0).toNat : ℕ) : ℚ) := by push_cast; linarith
        exact_mod_cast h''
  have hupper1 : (a : ℚ) < (10 : ℚ) ^ (e0 + 1) * (b : ℚ) := by
    calc (a : ℚ) < (10 : ℚ) ^ (digits10 a : ℤ) := hA1
      _ = (10 : ℚ) ^ (e0 + 1) * (10 : ℚ) ^ ((digits10 b : ℤ) - 1) := by
          rw [← zpow_add₀ (by norm_num : (10 : ℚ) ≠ 0)]
          congr 1
          omega
      _ ≤ (10 : ℚ) ^ (e0 + 1) * (b : ℚ) :=
          mul_le_mul_of_nonneg_left hB2 (le_of_lt (zpow_pos (by norm_num) _))
  have hlower1 : (10 : ℚ) ^ (e0 - 1) * (b : ℚ) < (a : ℚ) := by
    calc (10 : ℚ) ^ (e0 - 1) * (b : ℚ) < (10 : ℚ) ^ (e0 - 1) * (10 : ℚ) ^ (digits10 b : ℤ) :=
          mul_lt_mul_of_pos_left hB1 (zpow_pos (by norm_num) _)
      _ = (10 : ℚ) ^ ((digits10 a : ℤ) - 1) := by
          rw [← zpow_add₀ (by norm_num : (10 : ℚ) ≠ 0)]
          congr 1
          omega
      _ ≤ (a : ℚ) := hA2
  have hdec : decExp q = (if (if 0 ≤ e0 then b * 10 ^ e0.toNat ≤ a
      else b ≤ a * 10 ^ (-e0).toNat) then e0 else e0 - 1) := by
    unfold decExp
    dsimp only
    rw [← he0]
    by_cases hsgn : 0 ≤ e0
    · simp only [if_pos hsgn]
    · simp only [if_neg hsgn]
  rw [habs, hdec]
  by_cases hc : (if 0 ≤ e0 then b * 10 ^ e0.toNat ≤ a else b ≤ a * 10 ^ (-e0).toNat)
  · rw [if_pos hc]
    have hcle : (10 : ℚ) ^ e0 * (b : ℚ) ≤ (a : ℚ) := hbridge.mp hc
    constructor
    · rw [le_div_iff₀ hbq]
      linarith
    · rw [div_lt_iff₀ hbq]
      linarith
  · rw [if_neg hc]
    have hclt : (a : ℚ) < (10 : ℚ) ^ e0 * (b : ℚ) := by
      by_contra hcontr
      exact hc (hbridge.mpr (by linarith))
    constructor
    · rw [le_div_iff₀ hbq]
      linarith
    · rw [div_lt_iff₀ hbq]
      have : e0 - 1 + 1 = e0 := by omega
      rw [this]
      linarith

/-- The adjusted exponent is determined by any valid bracketing. -/
theorem decExp_eq {q : ℚ} (hq : q ≠ 0) {e : ℤ} (h1 : (10 : ℚ) ^ e ≤ |q|)
    (h2 : |q| < (10 : ℚ) ^ (e + 1)) : decExp q = e := by
  obtain ⟨g1, g2⟩ := decExp_spec hq
  by_contra hne
  rcases lt_or_gt_of_ne hne with hlt | hgt
  · have hle : (10 : ℚ) ^ (decExp q + 1) ≤ (10 : ℚ) ^ e :=
      zpow_le_zpow_right₀ (by norm_num) (by omega)
    linarith
  · have hle : (10 : ℚ) ^ (e + 1) ≤ (10 : ℚ) ^ decExp q :=
      zpow_le_zpow_right₀ (by norm_num) (by omega)
    linarith

theorem rndHalfEven_intCast (n : ℤ) : rndHalfEven (n : ℚ) = n := by
  unfold rndHalfEven
  rw [Int.floor_intCast]
  norm_num

/-- Rounding is the identity on values that already fit in `prec`
significant digits (witnessed by the scaled value being an integer). -/
theorem roundSigDec_eq_self {prec : ℕ} {q : ℚ} {e n : ℤ} (hq : q ≠ 0)
    (h1 : (10 : ℚ) ^ e ≤ |q|) (h2 : |q| < (10 : ℚ) ^ (e + 1))
    (hn : q * 10 ^ ((prec : ℤ) - 1 - e) = (n : ℚ)) :
    roundSigDec prec q = q := by
  unfold roundSigDec
  rw [if_neg hq, decExp_eq hq h1 h2]
  dsimp only
  rw [hn, rndHalfEven_intCast, ← hn, mul_assoc, ← zpow_add₀ (by norm_num : (10 : ℚ) ≠ 0)]
  norm_num

/-- Evaluation of the rounding through an explicit half-even integer
rounding of the scaled value. -/
theorem roundSigDec_eq {prec : ℕ} {q : ℚ} {e m : ℤ} (hq : q ≠ 0)
    (h1 : (10 : ℚ) ^ e ≤ |q|) (h2 : |q| < (10 : ℚ) ^ (e + 1))
    (hm : rndHalfEven (q * 10 ^ ((prec : ℤ) - 1 - e)) = m) :
    roundSigDec prec q = (m : ℚ) * 10 ^ (e + 1 - (prec : ℤ)) := by
  unfold roundSigDec
  rw [if_neg hq, decExp_eq hq h1 h2]
  dsimp only
  rw [hm]
  have hexp : -((prec : ℤ) - 1 - e) = e + 1 - (prec : ℤ) := by ring
  rw [hexp]

/-- Specialization of `roundSigDec_eq_self` to positive values. -/
theorem roundSigDec_eq_self_pos {prec : ℕ} {q : ℚ} {e n : ℤ} (hq : 0 < q)
    (h1 : (10 : ℚ) ^ e ≤ q) (h2 : q < (10 : ℚ) ^ (e + 1))
    (hn : q * 10 ^ ((prec : ℤ) - 1 - e) = (n : ℚ)) :
    roundSigDec prec q = q :=
  roundSigDec_eq_self (ne_of_gt hq) (by rwa [abs_of_pos hq]) (by rwa [abs_of_pos hq]) hn

/-- Specialization of `roundSigDec_eq` to positive values. -/
theorem roundSigDec_eq_pos {prec : ℕ} {q : ℚ} {e m : ℤ} (hq : 0 < q)
    (h1 : (10 : ℚ) ^ e ≤ q) (h2 : q < (10 : ℚ) ^ (e + 1))
    (hm : rndHalfEven (q * 10 ^ ((prec : ℤ) - 1 - e)) = m) :
    roundSigDec prec q = (m : ℚ) * 10 ^ (e + 1 - (prec : ℤ)) :=
  roundSigDec_eq (ne_of_gt hq) (by rwa [abs_of_pos hq]) (by rwa [abs_of_pos hq]) hm

theorem decMul_zero_left (x : ℚ) : decMul 0 x = 0 := by
  unfold decMul roundSigDec
  rw [zero_mul, if_pos rfl]

theorem decDiv_zero_left (x : ℚ) : decDiv 0 x = 0 := by
  unfold decDiv roundSigDec
  rw [zero_div, if_pos rfl]

/-- C1 counterexample: `Decimal` construction from a string is exact and
unbounded, but multiplication and division round to the context's 28
significant digits: on the record with `value` of 31 significant digits
(`1.111111111111111111111111111111`) and `probability` `3`, the program's
`weighted_value` is the rounded `0.03333333333333333333333333333`, not the
exact `value * probability / 100`. -/
theorem claim_C1_counterexample :
    Opportunity.value bigValueOpp = .ok ((1111111111111111111111111111111 : ℚ) / 10 ^ 30) ∧
    Opportunity.probability bigValueOpp = .ok 3 ∧
    Opportunity.weighted_value bigValueOpp
      = .ok ((3333333333333333333333333333 : ℚ) / 10 ^ 29) ∧
    (3333333333333333333333333333 : ℚ) / 10 ^ 29
      ≠ (1111111111111111111111111111111 : ℚ) / 10 ^ 30 * 3 / 100 := by
  refine ⟨rfl, rfl, ?_, by norm_num⟩
  rw [show Opportunity.weighted_value bigValueOpp
    = .ok (decDiv (decMul ((1111111111111111111111111111111 : ℚ) / 10 ^ 30) ((3 : ℤ) : ℚ)) 100)
    from rfl]
  have hq1 : (1111111111111111111111111111111 : ℚ) / 10 ^ 30 * ((3 : ℤ) : ℚ)
      = (3333333333333333333333333333333 : ℚ) / 10 ^ 30 := by
    push_cast
    norm_num
  have hm : decMul ((1111111111111111111111111111111 : ℚ) / 10 ^ 30) ((3 : ℤ) : ℚ)
      = (3333333333333333333333333333 : ℚ) / 10 ^ 27 := by
    unfold decMul
    rw [hq1]
    have hr : (3333333333333333333333333333333 : ℚ) / 10 ^ 30
          * 10 ^ ((decimalPrec : ℤ) - 1 - 0)
        = (3333333333333333333333333333333 : ℚ) / 10 ^ 3 := by
      norm_num [decimalPrec]
    have hfloor : ⌊(3333333333333333333333333333333 : ℚ) / 10 ^ 3⌋
        = 3333333333333333333333333333 := by
      rw [Int.floor_eq_iff]
      constructor <;> norm_num
    have hfl : rndHalfEven ((3333333333333333333333333333333 : ℚ) / 10 ^ 30
          * 10 ^ ((decimalPrec : ℤ) - 1 - 0))
        = 3333333333333333333333333333 := by
      rw [hr]
      unfold rndHalfEven
      rw [hfloor]
      norm_num
    have hres := roundSigDec_eq_pos (e := 0)
      (m := 3333333333333333333333333333) (by norm_num) (by norm_num) (by norm_num) hfl
    rw [hres]
    norm_num [decimalPrec]
  have hd : decDiv ((3333333333333333333333333333 : ℚ) / 10 ^ 27) 100
      = (3333333333333333333333333333 : ℚ) / 10 ^ 29 := by
    unfold decDiv
    rw [show (3333333333333333333333333333 : ℚ) / 10 ^ 27 / 100
        = (3333333333333333333333333333 : ℚ) / 10 ^ 29 by norm_num]
    exact roundSigDec_eq_self_pos (e := -2) (n := 3333333333333333333333333333)
      (by norm_num) (by norm_num) (by norm_num) (by norm_num [decimalPrec])
  rw [hm, hd]

/-- C1 (amended): for every constructed Opportunity, `open` is true exactly
when `actualCloseDate` is absent from the backing record, and
`weighted_value` is `value * probability / 100` computed in `Decimal`
default-context arithmetic — the product and the quotient each rounded to
28 significant digits, half-even; on the spec's sample raw record the
computation is exact: `open == true`, `probability == 50`,
`value == 200.00` and `weighted_value == 100.00`. -/
theorem claim_C1 (r : RawRecord) (v : ℚ) (p : ℤ)
    (hv : Opportunity.value r = .ok v) (hp : Opportunity.probability r = .ok p) :
    (Opportunity.«open» r = true ↔ getKey "actualCloseDate" r = none) ∧
    Opportunity.weighted_value r = .ok (decDiv (decMul v (p : ℚ)) 100) ∧
    Opportunity.«open» sampleOpportunity = true ∧
    Opportunity.probability sampleOpportunity = .ok 50 ∧
    Opportunity.value sampleOpportunity = .ok 200 ∧
    Opportunity.weighted_value sampleOpportunity = .ok 100 := by
  refine ⟨?_, ?_, rfl, rfl, ?_, ?_⟩
  · cases hacd : getKey "actualCloseDate" r <;> simp [Opportunity.«open», hacd]
  · unfold Opportunity.weighted_value
    rw [hv, ok_bind, hp, ok_bind]
    rfl
  · rw [show Opportunity.value sampleOpportunity = .ok ((20000 : ℚ) / 10 ^ 2) from rfl]
    simp only [Except.ok.injEq]
    norm_num
  · rw [show Opportunity.weighted_value sampleOpportunity
      = .ok (decDiv (decMul ((20000 : ℚ) / 10 ^ 2) ((50 : ℤ) : ℚ)) 100) from rfl]
    have hm1 : decMul ((20000 : ℚ) / 10 ^ 2) ((50 : ℤ) : ℚ) = 10000 := by
      unfold decMul
      rw [show (20000 : ℚ) / 10 ^ 2 * ((50 : ℤ) : ℚ) = 10000 by push_cast; norm_num]
      exact roundSigDec_eq_self_pos (e := 4) (n := 10 ^ 27)
        (by norm_num) (by norm_num) (by norm_num) (by norm_num [decimalPrec])
    have hm2 : decDiv (10000 : ℚ) 100 = 100 := by
      unfold decDiv
      rw [show (10000 : ℚ) / 100 = 100 by norm_num]
      exact roundSigDec_eq_self_pos (e := 2) (n := 10 ^ 27)
        (by norm_num) (by norm_num) (by norm_num) (by norm_num [decimalPrec])
    rw [hm1, hm2]

/-- C1 witness: the hypotheses hold on the sample record (with the raw,
unreduced rational representations), and the conclusion follows. -/
theorem claim_C1_witness :
    (Opportunity.value sampleOpportunity = .ok ((20000 : ℚ) / 10 ^ 2) ∧
      Opportunity.probability sampleOpportunity = .ok 50) ∧
    ((Opportunity.«open» sampleOpportunity = true ↔
        getKey "actualCloseDate" sampleOpportunity = none) ∧
      Opportunity.weighted_value sampleOpportunity
        = .ok (decDiv (decMul ((20000 : ℚ) / 10 ^ 2) ((50 : ℤ) : ℚ)) 100) ∧
      Opportunity.«open» sampleOpportunity = true ∧
      Opportunity.probability sampleOpportunity = .ok 50 ∧
      Opportunity.value sampleOpportunity = .ok 200 ∧
      Opportunity.weighted_value sampleOpportunity = .ok 100) :=
  ⟨⟨rfl, rfl⟩, claim_C1 sampleOpportunity ((20000 : ℚ) / 10 ^ 2) 50 rfl rfl⟩

/-- C9: an Opportunity whose record has no `value` key gets `value`
exactly 0 (and hence `weighted_value` 0 whenever `probability` is
readable), instead of the attribute-not-found signalling used for the
other optional fields `expectedCloseDate` and `actualCloseDate`. -/
theorem claim_C9 (r : RawRecord) (p : ℤ) (hv : getKey "value" r = none) :
    Opportunity.value r = .ok 0 ∧
    (Opportunity.probability r = .ok p → Opportunity.weighted_value r = .ok 0) ∧
    (getKey "expectedCloseDate" r = none →
      Opportunity.expectedCloseDate r = .error (.attributeError "")) ∧
    (getKey "actualCloseDate" r = none →
      Opportunity.actualCloseDate r = .error (.attributeError "")) := by
  have h0 : Opportunity.value r = .ok 0 := by unfold Opportunity.value; rw [hv]
  refine ⟨h0, fun hp => ?_, fun h => by unfold Opportunity.expectedCloseDate; rw [h],
    fun h => by unfold Opportunity.actualCloseDate; rw [h]⟩
  unfold Opportunity.weighted_value
  rw [h0, ok_bind, hp, ok_bind, decMul_zero_left, decDiv_zero_left]
  rfl

/-- C9 witness: a record with a probability and no `value` key. -/
theorem claim_C9_witness :
    (getKey "value" noValueOpp = none ∧ Opportunity.probability noValueOpp = .ok 50) ∧
    (Opportunity.value noValueOpp = .ok 0 ∧
      (Opportunity.probability noValueOpp = .ok 50 →
        Opportunity.weighted_value noValueOpp = .ok 0) ∧
      (getKey "expectedCloseDate" noValueOpp = none →
        Opportunity.expectedCloseDate noValueOpp = .error (.attributeError "")) ∧
      (getKey "actualCloseDate" noValueOpp = none →
        Opportunity.actualCloseDate noValueOpp = .error (.attributeError ""))) :=
  ⟨⟨rfl, rfl⟩, claim_C9 noValueOpp 50 rfl⟩

/-- C4 counterexample: the empty mapping is falsy in Python, so the
normalization sends it to the empty list — not to the one-element list
containing it, as the claim's single-object case demands. -/
theorem claim_C4_counterexample :
    CapsuleAPI.toList (some (.obj [])) = .arr [] ∧
    CapsuleAPI.toList (some (.obj [])) ≠ .arr [.obj []] := by
  refine ⟨rfl, ?_⟩
  intro h
  rw [show CapsuleAPI.toList (some (.obj [])) = .arr [] from rfl] at h
  simp at h

/-- C4 (amended): at every collection-typed response boundary, an absent or
falsy value (including the empty string and the *empty mapping*) yields the
empty list; a non-empty object yields the one-element list containing
exactly that object; a list is returned unchanged. -/
theorem claim_C4 (x : JSON) (f : List (String × JSON)) (l : List JSON) :
    CapsuleAPI.toList none = .arr [] ∧
    (truthy x = false → CapsuleAPI.toList (some x) = .arr []) ∧
    (f ≠ [] → CapsuleAPI.toList (some (.obj f)) = .arr [.obj f]) ∧
    CapsuleAPI.toList (some (.arr l)) = .arr l := by
  refine ⟨rfl, fun hx => ?_, fun hf => ?_, ?_⟩
  · simp [CapsuleAPI.toList, hx]
  · have htr : truthy (.obj f) = true := by
      cases f with
      | nil => exact absurd rfl hf
      | cons a l => rfl
    simp [CapsuleAPI.toList, htr]
  · cases l <;> rfl

/-- C4 witness: the empty string, a one-field object and a one-element
list. -/
theorem claim_C4_witness :
    (truthy (.str "") = false ∧ ([("a", JSON.null)] : List (String × JSON)) ≠ []) ∧
    (CapsuleAPI.toList none = .arr [] ∧
      (truthy (.str "") = false → CapsuleAPI.toList (some (.str "")) = .arr []) ∧
      (([("a", JSON.null)] : List (String × JSON)) ≠ [] →
        CapsuleAPI.toList (some (.obj [("a", JSON.null)])) = .arr [.obj [("a", JSON.null)]]) ∧
      CapsuleAPI.toList (some (.arr [JSON.null])) = .arr [JSON.null]) :=
  ⟨⟨rfl, by simp⟩, claim_C4 (.str "") [("a", JSON.null)] [JSON.null]⟩

/-- C7: `party(id)` builds a Person from the value under the `person` key
when present, and otherwise falls back to an Organisation from the value
under the `organisation` key (the two wrapper keys being mutually exclusive
server-side representations). -/
theorem claim_C7 (result : RawRecord) (p o : List (String × JSON)) :
    (getKey "person" result = some (.obj p) →
      CapsuleAPI.party result = .ok (.person p)) ∧
    (getKey "person" result = none → getKey "organisation" result = some (.obj o) →
      CapsuleAPI.party result = .ok (.organisation o)) := by
  constructor
  · intro h
    unfold CapsuleAPI.party
    rw [h]
    rfl
  · intro h1 h2
    unfold CapsuleAPI.party
    rw [h1, h2]
    rfl

/-- C7 witness: a `person`-wrapped response and an `organisation`-wrapped
response. -/
theorem claim_C7_witness :
    CapsuleAPI.party personResponse = .ok (.person samplePerson42) ∧
    CapsuleAPI.party orgResponse = .ok (.organisation acmeOrg) :=
  ⟨(claim_C7 personResponse samplePerson42 []).1 rfl,
   (claim_C7 orgResponse [] acmeOrg).2 rfl rfl⟩

/-- C8: the Person built from the raw party record
`{"id": 42, "contacts": ""}` signals AttributeNotFound from both the
`emails` and the `phone_numbers` accessor. -/
theorem claim_C8 :
    Party.emails samplePerson42 = .error (.attributeError "emails") ∧
    Party.phone_numbers samplePerson42 = .error (.attributeError "phone_numbers") :=
  ⟨rfl, rfl⟩

theorem getattr_of_getKey {r : RawRecord} {k : String} {v : JSON} (hk : k ≠ "customfields")
    (h : getKey k r = some v) : Opportunity.getattr r k = .ok v := by
  unfold Opportunity.getattr
  rw [if_neg hk, h]

theorem anyTaskMismatch_eval {r : RawRecord} {idv : JSON} (hid : getKey "id" r = some idv) :
    ∀ {tasks : List JSON}, tasks.all isObj = true →
      Opportunity.anyTaskMismatch r tasks =
        .ok (tasks.any fun x => !pyEq ((taskOppId x).getD .null) idv && truthy x)
  | [], _ => rfl
  | x :: tasks, h => by
    simp only [List.all_cons, Bool.and_eq_true] at h
    obtain ⟨hx, hrest⟩ := h
    match x, hx with
    | .obj f, _ =>
      have hgat : Opportunity.getattr r "id" = .ok idv := getattr_of_getKey (by decide) hid
      simp only [Opportunity.anyTaskMismatch, jsonGet, ok_bind, hgat, taskOppId, List.any_cons]
      by_cases hc : (!pyEq ((getKey "opportunityId" f).getD .null) idv && truthy (.obj f)) = true
      · rw [if_pos hc, hc, Bool.true_or]
      · rw [if_neg hc]
        rw [Bool.not_eq_true] at hc
        rw [hc, Bool.false_or]
        exact anyTaskMismatch_eval hid hrest

/-- C5 counterexample: enriching the opportunity `{"id": 7}` with the
single non-empty task `{"description": "x"}` — which has *no*
`opportunityId` key — fails, although no task has an `opportunityId`
differing from the opportunity's id; and with the single *empty* task
`{}` — whose `opportunityId` (read as `None`) does differ from 7 — the
enrichment succeeds and stores the list.  Both directions of the claimed
equivalence are therefore false as stated. -/
theorem claim_C5_counterexample :
    Opportunity.load_tasks_from_api oppSeven [strayTask] = .error .exceptionErr ∧
    taskOppId strayTask = none ∧
    Opportunity.load_tasks_from_api oppSeven [.obj []]
      = .ok [("id", .num 7), ("raw_tasks", .arr [.obj []])] ∧
    pyEq ((taskOppId (.obj [])).getD .null) (.num 7) = false :=
  ⟨rfl, rfl, rfl, rfl⟩

/-- C5 (amended): for every opportunity record carrying its `id` and every
list of task *mappings*, `load_tasks_from_api` fails fatally iff some
**non-empty** task's `opportunityId` (read as `None` when absent) differs
from the opportunity's id under Python `==`; on failure no `raw_tasks` key
is written (the backing record is left unchanged), and on success the full
input list is stored under `raw_tasks`. -/
theorem claim_C5 (r : RawRecord) (idv : JSON) (tasks : List JSON)
    (hid : getKey "id" r = some idv)
    (hobj : tasks.all isObj = true) :
    (Opportunity.load_tasks_from_api r tasks = .error .exceptionErr ↔
      ∃ x ∈ tasks, truthy x = true ∧ pyEq ((taskOppId x).getD .null) idv = false) ∧
    ((¬ ∃ x ∈ tasks, truthy x = true ∧ pyEq ((taskOppId x).getD .null) idv = false) →
      Opportunity.load_tasks_from_api r tasks = .ok (upsert "raw_tasks" (.arr tasks) r)) := by
  have hany := anyTaskMismatch_eval hid hobj
  have hiff : (tasks.any fun x => !pyEq ((taskOppId x).getD .null) idv && truthy x) = true ↔
      ∃ x ∈ tasks, truthy x = true ∧ pyEq ((taskOppId x).getD .null) idv = false := by
    rw [List.any_eq_true]
    constructor
    · rintro ⟨x, hx, hpx⟩
      simp only [Bool.and_eq_true, Bool.not_eq_true'] at hpx
      exact ⟨x, hx, hpx.2, hpx.1⟩
    · rintro ⟨x, hx, ht, hne⟩
      exact ⟨x, hx, by simp [ht, hne]⟩
  unfold Opportunity.load_tasks_from_api
  rw [hany, ok_bind]
  constructor
  · by_cases hb : (tasks.any fun x => !pyEq ((taskOppId x).getD .null) idv && truthy x) = true
    · rw [if_pos hb]
      simp only [true_iff]
      exact hiff.mp hb
    · rw [if_neg hb]
      simp only [except_pure]
      constructor
      · intro hcontr
        exact absurd hcontr (by simp)
      · intro hex
        exact absurd (hiff.mpr hex) hb
  · intro hnone
    have hb : (tasks.any fun x => !pyEq ((taskOppId x).getD .null) idv && truthy x) = false := by
      rw [Bool.eq_false_iff]
      intro hcontr
      exact hnone (hiff.mp hcontr)
    rw [hb]
    rfl

/-- C5 witness: one owned task (`opportunityId == 7`) on opportunity 7 is
accepted and stored. -/
theorem claim_C5_witness :
    (getKey "id" oppSeven = some (.num 7) ∧
      ([JSON.obj [("opportunityId", .num 7)]].all isObj) = true) ∧
    ((Opportunity.load_tasks_from_api oppSeven [.obj [("opportunityId", .num 7)]]
        = .error .exceptionErr ↔
      ∃ x ∈ [JSON.obj [("opportunityId", .num 7)]], truthy x = true ∧
        pyEq ((taskOppId x).getD .null) (.num 7) = false) ∧
    ((¬ ∃ x ∈ [JSON.obj [("opportunityId", .num 7)]], truthy x = true ∧
        pyEq ((taskOppId x).getD .null) (.num 7) = false) →
      Opportunity.load_tasks_from_api oppSeven [.obj [("opportunityId", .num 7)]]
        = .ok (upsert "raw_tasks" (.arr [.obj [("opportunityId", .num 7)]]) oppSeven))) :=
  ⟨⟨rfl, rfl⟩, claim_C5 oppSeven (.num 7) [.obj [("opportunityId", .num 7)]] rfl rfl⟩

theorem customfields_absent {r : RawRecord}
    (hcf : getKey "raw_customfields" r = none) (hleg : getKey "customfields" r = none) :
    CustomFieldsMixin.customfields r = .error (.attributeError "customfields") := by
  unfold CustomFieldsMixin.customfields CustomFieldsMixin.legacyLookup
  rw [hcf, hleg]
  rfl

theorem nameFieldLookup_plain {r : RawRecord} {rawKey attr : String}
    (hattr : attr ≠ "customfields") (hs : getKey attr r = none)
    (hcf : getKey "raw_customfields" r = none) (hleg : getKey "customfields" r = none) :
    Party.nameFieldLookup r rawKey attr = .ok (getKey rawKey r) := by
  unfold Party.nameFieldLookup
  cases hraw : getKey rawKey r with
  | some v => rfl
  | none =>
    unfold Party.getattr
    rw [if_neg hattr, hs, customfields_absent hcf hleg]

/-- C6 counterexample: the Person `{"id": 1, "firstName": ""}` has one of
the two name keys present, yet `name` raises instead of returning the
concatenation — empty name parts are dropped by the truthiness filter
before joining; and the Person
`{"id": 1, "raw_customfields": [{"label": "first_name", "text": "Bob"}]}`
carries *neither* `firstName` nor `lastName` yet `name` succeeds with
`"Bob"`: when the property raises, `Party.__getattr__` resolves
`first_name` through the custom-fields mapping. -/
theorem claim_C6_counterexample :
    (getKey "firstName" emptyNamePerson).isSome = true ∧
    Person.name emptyNamePerson = .error .exceptionErr ∧
    getKey "firstName" bobPerson = none ∧
    getKey "lastName" bobPerson = none ∧
    Person.name bobPerson = .ok "Bob" :=
  ⟨rfl, rfl, rfl, rfl, rfl⟩

/-- C6 (amended): for a Person whose record has no snake-case name keys and
no `raw_customfields` / legacy `customfields` backing (so
`Party.__getattr__`'s custom-field fallback cannot supply a name part): a
record with neither `firstName` nor `lastName` fails fatally on `name` (a
bare `Exception`; a `KeyError` when even `id` is missing from the message
interpolation) and never returns the empty string; with exactly one of the
two present as a *non-empty* string (the other absent or empty), `name` is
that string; with both present non-empty, `name` is the space-joined
concatenation of first and last name. -/
theorem claim_C6 (r : RawRecord) (fs ls : String)
    (hs1 : getKey "first_name" r = none) (hs2 : getKey "last_name" r = none)
    (hcf : getKey "raw_customfields" r = none) (hleg : getKey "customfields" r = none) :
    ((getKey "firstName" r = none ∧ getKey "lastName" r = none) →
      Person.name r
        = .error (if (getKey "id" r).isSome then .exceptionErr else .keyError "id")) ∧
    (getKey "firstName" r = some (.str fs) → fs ≠ "" →
      (getKey "lastName" r = none ∨ getKey "lastName" r = some (.str "")) →
      Person.name r = .ok fs) ∧
    (getKey "lastName" r = some (.str ls) → ls ≠ "" →
      (getKey "firstName" r = none ∨ getKey "firstName" r = some (.str "")) →
      Person.name r = .ok ls) ∧
    (getKey "firstName" r = some (.str fs) → getKey "lastName" r = some (.str ls) →
      fs ≠ "" → ls ≠ "" → Person.name r = .ok (fs ++ " " ++ ls)) := by
  have hfn : Party.nameFieldLookup r "firstName" "first_name" = .ok (getKey "firstName" r) :=
    nameFieldLookup_plain (by decide) hs1 hcf hleg
  have hln : Party.nameFieldLookup r "lastName" "last_name" = .ok (getKey "lastName" r) :=
    nameFieldLookup_plain (by decide) hs2 hcf hleg
  refine ⟨?_, ?_, ?_, ?_⟩
  · rintro ⟨hf, hl⟩
    simp only [Person.name, hfn, hf, hln, hl, List.filterMap, List.filter, mapE, ok_bind,
      except_pure, joinSpace]
    cases hid : getKey "id" r <;> simp [hid]
  · intro hf hfs hl
    have htr : truthy (.str fs) = true := by
      simp [truthy, hfs]
    rcases hl with hl | hl <;>
      simp [Person.name, hfn, hln, hf, hl, htr, truthy, mapE, asStr, ok_bind, except_pure,
        joinSpace, hfs]
  · intro hl hls hf
    have htr : truthy (.str ls) = true := by
      simp [truthy, hls]
    rcases hf with hf | hf <;>
      simp [Person.name, hfn, hln, hf, hl, htr, truthy, mapE, asStr, ok_bind, except_pure,
        joinSpace, hls]
  · intro hf hl hfs hls
    have htrf : truthy (.str fs) = true := by simp [truthy, hfs]
    have htrl : truthy (.str ls) = true := by simp [truthy, hls]
    have hjoin : ¬ (fs ++ " " ++ ls = "") := by
      intro hcontr
      have hlen := congrArg String.length hcontr
      have hsp : (" " : String).length = 1 := rfl
      simp only [String.length_append, hsp] at hlen
      have hz : ("" : String).length = 0 := rfl
      omega
    simp [Person.name, hfn, hln, hf, hl, htrf, htrl, mapE, asStr, ok_bind, except_pure,
      joinSpace, hjoin]

/-- C6 witness: the amended theorem applied to a person with both name
parts present and non-empty, and to a record with no name data at all. -/
theorem claim_C6_witness :
    ((getKey "first_name" adaPerson = none ∧ getKey "last_name" adaPerson = none ∧
        getKey "raw_customfields" adaPerson = none ∧ getKey "customfields" adaPerson = none ∧
        getKey "firstName" adaPerson = some (.str "Ada") ∧
        getKey "lastName" adaPerson = some (.str "Byron")) ∧
      Person.name adaPerson = .ok ("Ada" ++ " " ++ "Byron")) ∧
    Person.name oppSeven
      = .error (if (getKey "id" oppSeven).isSome then .exceptionErr else .keyError "id") :=
  ⟨⟨⟨rfl, rfl, rfl, rfl, rfl, rfl⟩,
    (claim_C6 adaPerson "Ada" "Byron" rfl rfl rfl rfl).2.2.2 rfl rfl (by decide) (by decide)⟩,
   (claim_C6 oppSeven "" "" rfl rfl rfl rfl).1 ⟨rfl, rfl⟩⟩

namespace CustomFieldsMixin

theorem to_tuple_lacks {x : JSON} (h : lacksValueKeysB x = true) :
    to_tuple x = .error .valueError := by
  match x with
  | .obj f =>
    simp only [lacksValueKeysB, Bool.and_eq_true, Bool.not_eq_true'] at h
    obtain ⟨⟨h1, h2⟩, h3⟩ := h
    simp [to_tuple, keyIn, ok_bind, h1, h2, h3]

theorem to_tuple_ok_of_hasLabel {x : JSON} (hl : hasLabelB x = true)
    (hv : lacksValueKeysB x = false) : ∃ p, to_tuple x = .ok p := by
  match x with
  | .obj f =>
    simp only [hasLabelB] at hl
    obtain ⟨l, hlv⟩ := Option.isSome_iff_exists.mp hl
    match ht : getKey "text" f with
    | some t =>
      exact ⟨(l, t), by simp [to_tuple, keyIn, ht, hlv, jsonIndex, ok_bind, except_pure]⟩
    | none =>
      match hb : getKey "boolean" f with
      | some b =>
        exact ⟨(l, .bool (pyEq b (.str "true"))),
          by simp [to_tuple, keyIn, ht, hb, hlv, jsonIndex, ok_bind, except_pure]⟩
      | none =>
        match hn : getKey "number" f with
        | some n =>
          exact ⟨(l, n),
            by simp [to_tuple, keyIn, ht, hb, hn, hlv, jsonIndex, ok_bind, except_pure]⟩
        | none => simp [lacksValueKeysB, ht, hb, hn] at hv

theorem mapE_to_tuple_error : ∀ {xs : List JSON},
    (∀ x ∈ xs, hasLabelB x = true) → (∃ x ∈ xs, lacksValueKeysB x = true) →
    mapE to_tuple xs = .error .valueError
  | [], _, h => by simp at h
  | x :: xs, hlab, hbad => by
    by_cases hx : lacksValueKeysB x = true
    · simp [mapE, to_tuple_lacks hx, error_bind]
    · obtain ⟨p, hp⟩ := to_tuple_ok_of_hasLabel (hlab x (List.mem_cons_self _ _))
        (Bool.not_eq_true _ ▸ hx)
      have hbad' : ∃ y ∈ xs, lacksValueKeysB y = true := by
        obtain ⟨y, hy, hyl⟩ := hbad
        rcases List.mem_cons.mp hy with rfl | hy'
        · exact absurd hyl hx
        · exact ⟨y, hy', hyl⟩
      have hrest := mapE_to_tuple_error (fun z hz => hlab z (List.mem_cons_of_mem _ hz)) hbad'
      simp [mapE, hp, ok_bind, hrest, error_bind]

end CustomFieldsMixin

open CustomFieldsMixin in
/-- C3: a plain custom-field entry's value is selected by the first present
one of `text` / `boolean` / `number` (the Python-`==` comparison of the
`boolean` value against the literal string `"true"` — any other value
resolves to `false`, not an error), and an entry with none of the three
keys is a fatal shape violation (`ValueError`, the spec's FormatError),
which propagates out of the `customfields` accessor rather than being
skipped or defaulted. -/
theorem claim_C3 (e : List (String × JSON)) (l t b n : JSON) (r : RawRecord) (xs : List JSON) :
    (getKey "label" e = some l → getKey "text" e = some t →
      to_tuple (.obj e) = .ok (l, t)) ∧
    (getKey "label" e = some l → getKey "text" e = none → getKey "boolean" e = some b →
      to_tuple (.obj e) = .ok (l, .bool (pyEq b (.str "true")))) ∧
    (getKey "label" e = some l → getKey "text" e = none → getKey "boolean" e = none →
      getKey "number" e = some n → to_tuple (.obj e) = .ok (l, n)) ∧
    (getKey "text" e = none → getKey "boolean" e = none → getKey "number" e = none →
      to_tuple (.obj e) = .error .valueError) ∧
    (getKey "raw_customfields" r = some (.arr xs) → xs ≠ [] →
      (∀ x ∈ xs, hasLabelB x = true) → (∃ x ∈ xs, lacksValueKeysB x = true) →
      customfields r = .error .valueError) := by
  refine ⟨?_, ?_, ?_, ?_, ?_⟩
  · intro hl ht
    simp [to_tuple, keyIn, ht, hl, jsonIndex, ok_bind, except_pure]
  · intro hl ht hb
    simp [to_tuple, keyIn, ht, hb, hl, jsonIndex, ok_bind, except_pure]
  · intro hl ht hb hn
    simp [to_tuple, keyIn, ht, hb, hn, hl, jsonIndex, ok_bind, except_pure]
  · intro ht hb hn
    simp [to_tuple, keyIn, ht, hb, hn, ok_bind]
  · intro hraw hne hlab hbad
    have htr : truthy (.arr xs) = true := by
      cases xs with
      | nil => exact absurd rfl hne
      | cons a rest => rfl
    have hmap := mapE_to_tuple_error hlab hbad
    simp only [customfields, hraw, htr, if_true, except_pure, ok_bind, asList, hmap, error_bind]
    rfl

open CustomFieldsMixin in
/-- C3 witness: one entry of each kind, and an accessor-level failure. -/
theorem claim_C3_witness :
    to_tuple (.obj [("label", .str "Source"), ("text", .str "Web")])
      = .ok (.str "Source", .str "Web") ∧
    to_tuple (.obj [("label", .str "S"), ("boolean", .str "yes")])
      = .ok (.str "S", .bool false) ∧
    to_tuple (.obj [("label", .str "N"), ("number", .num 5)]) = .ok (.str "N", .num 5) ∧
    to_tuple (.obj [("label", .str "E")]) = .error .valueError ∧
    customfields badFieldsRec = .error .valueError :=
  ⟨(claim_C3 [("label", .str "Source"), ("text", .str "Web")]
      (.str "Source") (.str "Web") .null .null [] []).1 rfl rfl,
   (claim_C3 [("label", .str "S"), ("boolean", .str "yes")]
      (.str "S") .null (.str "yes") .null [] []).2.1 rfl rfl rfl,
   (claim_C3 [("label", .str "N"), ("number", .num 5)]
      (.str "N") .null .null (.num 5) [] []).2.2.1 rfl rfl rfl rfl,
   (claim_C3 [("label", .str "E")] .null .null .null .null [] []).2.2.2.1 rfl rfl rfl,
   (claim_C3 [] .null .null .null .null badFieldsRec [.obj [("label", .str "E")]]).2.2.2.2
     rfl (by simp)
     (by intro x hx; rw [List.mem_singleton] at hx; subst hx; rfl)
     ⟨.obj [("label", .str "E")], List.mem_singleton.mpr rfl, rfl⟩⟩

/-- C10: the legacy fallback in `customfields` is taken not only when
`raw_customfields` is absent but also when it is the *empty* list: after
enriching an entity (with no legacy `customfields` key) via
`load_customfields_from_api` with entries that all carry a `date` key,
`raw_customfields` is `[]` — falsy — and the accessor signals
AttributeNotFound instead of returning an empty mapping. -/
theorem claim_C10 (r : RawRecord) (entries : List RawRecord)
    (hdate : entries.all (fun x => (getKey "date" x).isSome) = true)
    (hleg : getKey "customfields" r = none) :
    CustomFieldsMixin.customfields (CustomFieldsMixin.load_customfields_from_api r entries)
      = .error (.attributeError "customfields") := by
  have hfilter : entries.filter (fun x => !(getKey "date" x).isSome) = [] := by
    rw [List.filter_eq_nil_iff]
    intro x hx
    have hsome := List.all_eq_true.mp hdate x hx
    simp [hsome]
  unfold CustomFieldsMixin.load_customfields_from_api
  rw [hfilter]
  have hraw2 : getKey "raw_customfields"
      (upsert "raw_datatags"
        (.arr ((entries.filter fun x => (getKey "date" x).isSome).map JSON.obj))
        (upsert "raw_customfields" (.arr (([] : List RawRecord).map JSON.obj)) r))
      = some (.arr []) := by
    rw [getKey_upsert_ne (by decide), getKey_upsert_self]
    rfl
  have hleg2 : getKey "customfields"
      (upsert "raw_datatags"
        (.arr ((entries.filter fun x => (getKey "date" x).isSome).map JSON.obj))
        (upsert "raw_customfields" (.arr (([] : List RawRecord).map JSON.obj)) r))
      = none := by
    rw [getKey_upsert_ne (by decide), getKey_upsert_ne (by decide), hleg]
  simp only [CustomFieldsMixin.customfields, hraw2, CustomFieldsMixin.legacyLookup, hleg2]
  rfl

/-- C10 witness: entity `{"id": 3}` enriched with a single dated entry. -/
theorem claim_C10_witness :
    (allDateEntries.all (fun x => (getKey "date" x).isSome) = true ∧
      getKey "customfields" plainEntity = none) ∧
    CustomFieldsMixin.customfields
        (CustomFieldsMixin.load_customfields_from_api plainEntity allDateEntries)
      = .error (.attributeError "customfields") :=
  ⟨⟨rfl, rfl⟩, claim_C10 plainEntity allDateEntries rfl rfl⟩

